import Mathlib

set_option maxHeartbeats 1000000

/-!
Verification of the DataGen websocket bridge (`server_socket.py`).

The development shallowly embeds the program's pure/stateful logic:
* a JSON value type with a printer mirroring Python's `json.dumps`
  (both `ensure_ascii` modes, compact and `indent=2` layouts) and a
  parser mirroring `json.loads` (integer numerals; floats are outside
  the embedding),
* the three agent tools `write_json`, `read_json`,
  `generate_sample_users` over an explicit file-system state, with
  Python's `random.randint` and the wall clock passed in as oracles,
* the per-connection message handler and the process-wide
  `CONNECTIONS` session store as explicit state transitions.
-/

mutual
/-- JSON values as produced by Python's `json` module restricted to
integer numerals.  Arrays and objects are their own inductives so that
mutual recursion and induction stay structural. -/
inductive Json where
  | null : Json
  | bool (b : Bool) : Json
  | num (n : Int) : Json
  | str (s : String) : Json
  | arr (xs : JsonList) : Json
  | obj (fs : JsonFields) : Json
deriving DecidableEq

inductive JsonList where
  | nil : JsonList
  | cons (hd : Json) (tl : JsonList) : JsonList
deriving DecidableEq

inductive JsonFields where
  | nil : JsonFields
  | cons (key : String) (val : Json) (tl : JsonFields) : JsonFields
deriving DecidableEq
end

/-- Decimal digit to character (`0`–`9`). -/
def digitChar (d : Nat) : Char := Char.ofNat (48 + d)

/-- Lowercase hexadecimal digit to character, as Python's `'\u%04x'`. -/
def hexChar (d : Nat) : Char :=
  if d < 10 then Char.ofNat (48 + d) else Char.ofNat (87 + d)

/-- Four lowercase hex digits, most significant first. -/
def hex4 (n : Nat) : List Char :=
  [hexChar (n / 4096 % 16), hexChar (n / 256 % 16), hexChar (n / 16 % 16), hexChar (n % 16)]

/-- Decimal digits of `n`, most significant first, empty for `0`;
`fuel` bounds the recursion depth and any `fuel ≥ n` is exact. -/
def natCharsAux : Nat → Nat → List Char
  | 0, _ => []
  | fuel + 1, n => if n = 0 then [] else natCharsAux fuel (n / 10) ++ [digitChar (n % 10)]

/-- Decimal digits of `n`, most significant first; `0` prints as `"0"`. -/
def natChars (n : Nat) : List Char :=
  if n = 0 then ['0'] else natCharsAux n n

/-- Python `repr` of an integer. -/
def intChars (n : Int) : List Char :=
  if n < 0 then '-' :: natChars n.natAbs else natChars n.toNat

/-- One character of a Python JSON string literal.  With `ascii := false`
this is `json.dumps(..., ensure_ascii=False)`: only `"`, `\` and control
characters are escaped.  With `ascii := true` every character outside
`0x20`–`0x7e` is additionally escaped, astral characters as a surrogate
pair. -/
def escapeChar (ascii : Bool) (c : Char) : List Char :=
  if c = '"' then ['\\', '"']
  else if c = '\\' then ['\\', '\\']
  else if c = '\n' then ['\\', 'n']
  else if c = '\r' then ['\\', 'r']
  else if c = '\t' then ['\\', 't']
  else if c.toNat = 8 then ['\\', 'b']
  else if c.toNat = 12 then ['\\', 'f']
  else if c.toNat < 32 then '\\' :: 'u' :: hex4 c.toNat
  else if ascii && decide (126 < c.toNat) then
    if c.toNat < 65536 then '\\' :: 'u' :: hex4 c.toNat
    else ('\\' :: 'u' :: hex4 (55296 + (c.toNat - 65536) / 1024)) ++
         ('\\' :: 'u' :: hex4 (56320 + (c.toNat - 65536) % 1024))
  else [c]

/-- Body of a JSON string literal. -/
def escapeString (ascii : Bool) (s : String) : List Char :=
  s.data.flatMap (escapeChar ascii)

/-- A quoted JSON string literal. -/
def quoteString (ascii : Bool) (s : String) : List Char :=
  '"' :: escapeString ascii s ++ ['"']

/-- Newline followed by the two-spaces-per-level indentation of
`json.dumps(..., indent=2)`. -/
def nlIndent (d : Nat) : List Char := '\n' :: List.replicate (2 * d) ' '

/-- Layout emitted after an opening bracket (before the first element). -/
def openInd (pretty : Bool) (d : Nat) : List Char :=
  if pretty then nlIndent d else []

/-- Layout emitted before a closing bracket. -/
def closeInd (pretty : Bool) (d : Nat) : List Char :=
  if pretty then nlIndent d else []

/-- Item separator: `",\n<indent>"` when indented, `", "` compact. -/
def itemSep (pretty : Bool) (d : Nat) : List Char :=
  if pretty then ',' :: nlIndent d else [',', ' ']

mutual
/-- Printer for `json.dumps`: `ascii` selects `ensure_ascii`, `pretty`
selects `indent=2` (versus the compact default separators), `d` is the
current nesting depth. -/
def printVal (ascii pretty : Bool) (d : Nat) (x : Json) : List Char :=
  match x with
  | .null => "null".data
  | .bool true => "true".data
  | .bool false => "false".data
  | .num n => intChars n
  | .str s => quoteString ascii s
  | .arr .nil => ['[', ']']
  | .arr (.cons x xs) =>
      '[' :: (openInd pretty (d + 1) ++ printArrItems ascii pretty (d + 1) (.cons x xs) ++
        closeInd pretty d ++ [']'])
  | .obj .nil => ['\x7b', '\x7d']
  | .obj (.cons k v fs) =>
      '\x7b' :: (openInd pretty (d + 1) ++ printObjItems ascii pretty (d + 1) (.cons k v fs) ++
        closeInd pretty d ++ ['\x7d'])

/-- Successive array items, comma-separated. -/
def printArrItems (ascii pretty : Bool) (d : Nat) (xs : JsonList) : List Char :=
  match xs with
  | .nil => []
  | .cons x .nil => printVal ascii pretty d x
  | .cons x (.cons y ys) =>
      printVal ascii pretty d x ++ itemSep pretty d ++ printArrItems ascii pretty d (.cons y ys)

/-- Successive object members, comma-separated, `": "` after each key. -/
def printObjItems (ascii pretty : Bool) (d : Nat) (fs : JsonFields) : List Char :=
  match fs with
  | .nil => []
  | .cons k v .nil => quoteString ascii k ++ ':' :: ' ' :: printVal ascii pretty d v
  | .cons k v (.cons k2 v2 fs2) =>
      quoteString ascii k ++ ':' :: ' ' :: printVal ascii pretty d v ++ itemSep pretty d ++
        printObjItems ascii pretty d (.cons k2 v2 fs2)
end

/-- `json.dumps(x, ...)` as a Lean string. -/
def dumps (ascii pretty : Bool) (x : Json) : String :=
  String.mk (printVal ascii pretty 0 x)

example : dumps true false (.obj (.cons "a" (.num 1) .nil)) = "\x7b\"a\": 1\x7d" := by rfl
example : dumps true true (.obj (.cons "a" (.num 1) .nil)) = "\x7b\n  \"a\": 1\n\x7d" := by rfl
example : (dumps true false (.obj (.cons "a" (.num 1) .nil))).length = 8 := by rfl
example : (dumps true true (.obj (.cons "a" (.num 1) .nil))).length = 12 := by rfl
example : dumps true false (.arr (.cons (.num 1) (.cons (.num (-2)) .nil))) = "[1, -2]" := by rfl
example : dumps false false (.str "h🚀") = "\"h🚀\"" := by rfl
example : dumps true false (.str "h🚀") = "\"h\\ud83d\\ude80\"" := by rfl

/-- JSON whitespace accepted between tokens by `json.loads`. -/
def isJsonWs (c : Char) : Bool :=
  c = ' ' || c = '\t' || c = '\n' || c = '\r'

/-- Skip leading JSON whitespace. -/
def skipWs (l : List Char) : List Char := l.dropWhile isJsonWs

/-- Value of one hexadecimal digit character. -/
def hexVal? (c : Char) : Option Nat :=
  if '0' ≤ c ∧ c ≤ '9' then some (c.toNat - 48)
  else if 'a' ≤ c ∧ c ≤ 'f' then some (c.toNat - 87)
  else if 'A' ≤ c ∧ c ≤ 'F' then some (c.toNat - 55)
  else none

/-- Parse exactly four hexadecimal digits. -/
def parseHex4 : List Char → Option (Nat × List Char)
  | a :: b :: c :: d :: rest =>
    match hexVal? a, hexVal? b, hexVal? c, hexVal? d with
    | some va, some vb, some vc, some vd => some (((va * 16 + vb) * 16 + vc) * 16 + vd, rest)
    | _, _, _, _ => none
  | _ => none

/-- Consume a maximal run of decimal digits, accumulating their value. -/
def lexDigits : List Char → Nat → Nat × List Char
  | [], acc => (acc, [])
  | c :: r, acc =>
    if c.isDigit then lexDigits r (acc * 10 + (c.toNat - 48)) else (acc, c :: r)

/-- Parse a JSON natural numeral (no leading zeros, as in Python's
`NUMBER_RE`): a leading `0` terminates the numeral. -/
def pNat : List Char → Option (Nat × List Char)
  | [] => none
  | c :: r =>
    if c = '0' then some (0, r)
    else if c.isDigit then some (lexDigits r (c.toNat - 48)) else none

/-- Parse a JSON integer numeral with optional leading minus. -/
def pInt : List Char → Option (Int × List Char)
  | [] => none
  | c :: r =>
    if c = '-' then (pNat r).map (fun p => (-(p.1 : Int), p.2))
    else (pNat (c :: r)).map (fun p => ((p.1 : Int), p.2))

/-- Parse the body of a JSON string literal (the opening quote already
consumed), as Python's `scanstring`: escape sequences are decoded, a
high/low surrogate escape pair is combined into one scalar, control
characters are rejected.  Each step consumes at least one character, so
any `fuel` larger than the input length is exact. -/
def pStrBody : Nat → List Char → Except String (List Char × List Char)
  | 0, _ => .error "Unterminated string"
  | fuel + 1, l =>
    match l with
    | [] => .error "Unterminated string"
    | c :: r =>
      if c = '"' then .ok ([], r)
      else if c = '\\' then
        match r with
        | [] => .error "Unterminated string"
        | e :: r2 =>
          if e = 'u' then
            match parseHex4 r2 with
            | none => .error "Invalid \\uXXXX escape"
            | some (n, r3) =>
              if 55296 ≤ n ∧ n ≤ 56319 then
                match r3 with
                | a :: b :: r4 =>
                  if a = '\\' ∧ b = 'u' then
                    match parseHex4 r4 with
                    | none => .error "Invalid \\uXXXX escape"
                    | some (m, r5) =>
                      if 56320 ≤ m ∧ m ≤ 57343 then
                        match pStrBody fuel r5 with
                        | .ok (cs, rest) =>
                            .ok (Char.ofNat (65536 + (n - 55296) * 1024 + (m - 56320)) :: cs,
                              rest)
                        | .error e => .error e
                      else
                        match pStrBody fuel r3 with
                        | .ok (cs, rest) => .ok (Char.ofNat n :: cs, rest)
                        | .error e => .error e
                  else
                    match pStrBody fuel r3 with
                    | .ok (cs, rest) => .ok (Char.ofNat n :: cs, rest)
                    | .error e => .error e
                | _ =>
                  match pStrBody fuel r3 with
                  | .ok (cs, rest) => .ok (Char.ofNat n :: cs, rest)
                  | .error e => .error e
              else
                match pStrBody fuel r3 with
                | .ok (cs, rest) => .ok (Char.ofNat n :: cs, rest)
                | .error e => .error e
          else
            let esc : Option Char :=
              if e = '"' then some '"'
              else if e = '\\' then some '\\'
              else if e = '/' then some '/'
              else if e = 'b' then some (Char.ofNat 8)
              else if e = 'f' then some (Char.ofNat 12)
              else if e = 'n' then some '\n'
              else if e = 'r' then some '\r'
              else if e = 't' then some '\t'
              else none
            match esc with
            | none => .error "Invalid \\escape"
            | some ec =>
              match pStrBody fuel r2 with
              | .ok (cs, rest) => .ok (ec :: cs, rest)
              | .error e => .error e
      else if c.toNat < 32 then .error "Invalid control character"
      else
        match pStrBody fuel r with
        | .ok (cs, rest) => .ok (c :: cs, rest)
        | .error e => .error e

/-- Does a field list contain a key? -/
def hasKey : JsonFields → String → Bool
  | .nil, _ => false
  | .cons k _ tl, key => k = key || hasKey tl key

/-- Replace the value stored at the first occurrence of a key. -/
def setKey : JsonFields → String → Json → JsonFields
  | .nil, _, _ => .nil
  | .cons k v tl, key, w =>
    if k = key then .cons k w tl else .cons k v (setKey tl key w)

/-- Concatenation of field lists. -/
def jfAppend : JsonFields → JsonFields → JsonFields
  | .nil, b => b
  | .cons k v tl, b => .cons k v (jfAppend tl b)

/-- Left fold of Python `dict` insertion over parsed members. -/
def pyDictGo (acc : JsonFields) : JsonFields → JsonFields
  | .nil => acc
  | .cons k v tl =>
    pyDictGo (if hasKey acc k then setKey acc k v else jfAppend acc (.cons k v .nil)) tl

/-- Python `dict(pairs)` semantics for object members: a repeated key
keeps its first position but its last value. -/
def pyDict (fs : JsonFields) : JsonFields := pyDictGo .nil fs

mutual
/-- The JSON value parser (`json.loads` grammar with integer numerals).
`fuel` bounds nesting/iteration of the mutual group; string bodies run
on their own length-derived fuel.  Returns the parsed value and the
unconsumed input. -/
def pVal : Nat → List Char → Except String (Json × List Char)
  | 0, _ => .error "Nesting too deep"
  | fuel + 1, l =>
    match skipWs l with
    | [] => .error "Expecting value"
    | c :: r =>
      if c = 'n' then
        match r with
        | 'u' :: 'l' :: 'l' :: r2 => .ok (.null, r2)
        | _ => .error "Expecting value"
      else if c = 't' then
        match r with
        | 'r' :: 'u' :: 'e' :: r2 => .ok (.bool true, r2)
        | _ => .error "Expecting value"
      else if c = 'f' then
        match r with
        | 'a' :: 'l' :: 's' :: 'e' :: r2 => .ok (.bool false, r2)
        | _ => .error "Expecting value"
      else if c = '"' then
        match pStrBody (r.length + 1) r with
        | .ok (cs, rest) => .ok (.str (String.mk cs), rest)
        | .error e => .error e
      else if c = '[' then
        match skipWs r with
        | c2 :: r2 =>
          if c2 = ']' then .ok (.arr .nil, r2)
          else
            match pItems fuel r with
            | .ok (xs, rest) => .ok (.arr xs, rest)
            | .error e => .error e
        | [] => .error "Expecting value"
      else if c = '\x7b' then
        match skipWs r with
        | c2 :: r2 =>
          if c2 = '\x7d' then .ok (.obj .nil, r2)
          else
            match pMembers fuel r with
            | .ok (fs, rest) => .ok (.obj (pyDict fs), rest)
            | .error e => .error e
        | [] => .error "Expecting property name"
      else if c = '-' || c.isDigit then
        match pInt (c :: r) with
        | some (n, rest) => .ok (.num n, rest)
        | none => .error "Expecting value"
      else .error "Expecting value"

/-- Comma-separated array items up to the closing `]`. -/
def pItems : Nat → List Char → Except String (JsonList × List Char)
  | 0, _ => .error "Nesting too deep"
  | fuel + 1, l =>
    match pVal fuel l with
    | .error e => .error e
    | .ok (v, r) =>
      match skipWs r with
      | c2 :: r2 =>
        if c2 = ',' then
          match pItems fuel r2 with
          | .ok (vs, rest) => .ok (.cons v vs, rest)
          | .error e => .error e
        else if c2 = ']' then .ok (.cons v .nil, r2)
        else .error "Expecting comma delimiter"
      | [] => .error "Expecting comma delimiter"

/-- Comma-separated `"key": value` members up to the closing brace. -/
def pMembers : Nat → List Char → Except String (JsonFields × List Char)
  | 0, _ => .error "Nesting too deep"
  | fuel + 1, l =>
    match skipWs l with
    | c0 :: r =>
      if c0 = '"' then
        match pStrBody (r.length + 1) r with
        | .error e => .error e
        | .ok (ks, r2) =>
          match skipWs r2 with
          | c1 :: r3 =>
            if c1 = ':' then
              match pVal fuel r3 with
              | .error e => .error e
              | .ok (v, r4) =>
                match skipWs r4 with
                | c2 :: r5 =>
                  if c2 = ',' then
                    match pMembers fuel r5 with
                    | .ok (fs, rest) => .ok (.cons (String.mk ks) v fs, rest)
                    | .error e => .error e
                  else if c2 = '\x7d' then .ok (.cons (String.mk ks) v .nil, r5)
                  else .error "Expecting comma delimiter"
                | [] => .error "Expecting comma delimiter"
            else .error "Expecting colon delimiter"
          | [] => .error "Expecting colon delimiter"
      else .error "Expecting property name"
    | [] => .error "Expecting property name"
end

/-- `json.loads`: parse a whole string to a JSON value; trailing
non-whitespace is an error. -/
def json_loads (s : String) : Except String Json :=
  match pVal (s.data.length + 1) s.data with
  | .error e => .error e
  | .ok (v, rest) => if (skipWs rest).isEmpty then .ok v else .error "Extra data"

example : json_loads "\x7b\"a\": [1, -2, \"x\"]\x7d" =
    .ok (.obj (.cons "a" (.arr (.cons (.num 1) (.cons (.num (-2))
      (.cons (.str "x") .nil)))) .nil)) := by rfl
example : json_loads " null " = .ok .null := by rfl
example : json_loads "nul" = .error "Expecting value" := by rfl
example : json_loads "\"h\\ud83d\\ude80\"" = .ok (.str "h🚀") := by rfl
example : json_loads "\x7b\"a\": 1, \"b\": 2, \"a\": 3\x7d" =
    .ok (.obj (.cons "a" (.num 3) (.cons "b" (.num 2) .nil))) := by rfl
example : json_loads (dumps false true (.obj (.cons "a" (.arr (.cons (.num 10) .nil)) .nil))) =
    .ok (.obj (.cons "a" (.arr (.cons (.num 10) .nil)) .nil)) := by rfl

/-- The file-system state seen by the tools.  `files` maps a path to
its current content; `writeErr`/`readErr` model environmental I/O
failures (`OSError` etc.) that `open`/`read`/`write` would raise at a
path, carrying the exception description. -/
structure FS where
  files : String → Option String
  writeErr : String → Option String
  readErr : String → Option String

/-- A file system with no files and no failing paths. -/
def emptyFS : FS :=
  { files := fun _ => none, writeErr := fun _ => none, readErr := fun _ => none }

/-- Tool `write_json(filepath, data)`: writes
`json.dump(data, f, indent=2, ensure_ascii=False)` and returns a message
quoting `len(json.dumps(data))` — the length of the *compact,
ASCII-escaped* serialization, not of the pretty text written.  Any
exception is returned as an error string. -/
def write_json (fs : FS) (filepath : String) (data : Json) : FS × String :=
  match fs.writeErr filepath with
  | some e => (fs, "Error writing JSON: " ++ e)
  | none =>
    ({ fs with
        files := fun p => if p = filepath then some (dumps false true data) else fs.files p },
     "Successfully wrote JSON data to '" ++ filepath ++ "' (" ++
       String.mk (natChars (dumps true false data).length) ++ " characters).")

/-- Tool `read_json(filepath)`: reads and parses the file, returning
`json.dumps(data, indent=2)` of the parsed value; `FileNotFoundError`,
`json.JSONDecodeError` and any other exception each map to their own
error string. -/
def read_json (fs : FS) (filepath : String) : String :=
  match fs.files filepath with
  | none => "Error: File '" ++ filepath ++ "' not found."
  | some content =>
    match fs.readErr filepath with
    | some e => "Error reading JSON: " ++ e
    | none =>
      match json_loads content with
      | .ok v => dumps true true v
      | .error e => "Error: Invalid JSON in file - " ++ e

/-- One generated sample user, the dict built per loop iteration of
`generate_sample_users`. -/
structure UserRecord where
  id : Nat
  firstName : String
  lastName : String
  email : String
  username : String
  age : Int
  registeredAt : String
deriving DecidableEq

/-- Result of `generate_sample_users`: the `{"error": ...}` dict or the
`{"users": ..., "count": ...}` dict. -/
inductive GenResult where
  | error (msg : String)
  | ok (users : List UserRecord) (count : Nat)
deriving DecidableEq

/-- Tool `generate_sample_users`.  `randint k lo hi` is the value of the
`k`-th call to `random.randint(lo, hi)` (three calls per record, in
source order: username suffix, age, registration offset) and
`isoDaysAgo n` is `(datetime.now() - timedelta(days=n)).isoformat()`;
both are oracles for the external randomness and clock. -/
def generate_sample_users (randint : Nat → Int → Int → Int) (isoDaysAgo : Int → String)
    (first_names last_names domains : List String) (min_age max_age : Int) : GenResult :=
  if first_names.isEmpty then .error "first_names list cannot be empty"
  else if last_names.isEmpty then .error "last_names list cannot be empty"
  else if domains.isEmpty then .error "domains list cannot be empty"
  else if min_age > max_age then
    .error ("min_age (" ++ String.mk (intChars min_age) ++
      ") cannot be greater than max_age (" ++ String.mk (intChars max_age) ++ ")")
  else if min_age < 0 ∨ max_age < 0 then .error "ages must be non-negative"
  else
    let count := first_names.length
    let users := (List.range count).map (fun i =>
      let first := first_names.getD i ""
      let last := last_names.getD (i % last_names.length) ""
      let domain := domains.getD (i % domains.length) ""
      let email := first.toLower ++ "." ++ last.toLower ++ "@" ++ domain
      { id := i + 1
        firstName := first
        lastName := last
        email := email
        username := first.toLower ++ String.mk (intChars (randint (3 * i) 100 999))
        age := randint (3 * i + 1) min_age max_age
        registeredAt := isoDaysAgo (randint (3 * i + 2) 1 365) : UserRecord })
    .ok users users.length

/-- One conversation turn (`HumanMessage` or `AIMessage`). -/
inductive Turn where
  | user (text : String)
  | assistant (text : String)
deriving DecidableEq

/-- One outbound envelope `{"type": ..., "text": ...}`. -/
inductive Envelope where
  | system (text : String)
  | agent (text : String)
  | error (text : String)
deriving DecidableEq

/-- ASCII whitespace stripped by Python's `str.strip()` (the further
Unicode space characters Python also strips are left out of the
embedding). -/
def isPyStripWs (c : Char) : Bool :=
  c = ' ' || c = '\t' || c = '\n' || c = '\r' || c = '\x0b' || c = '\x0c'

/-- Python `str.strip()`. -/
def pyStrip (s : String) : String :=
  String.mk (((s.data.dropWhile isPyStripWs).reverse.dropWhile isPyStripWs).reverse)

/-- Python type name of a JSON value, as it appears in an
`AttributeError` description. -/
def pyTypeName : Json → String
  | .null => "NoneType"
  | .bool _ => "bool"
  | .num _ => "int"
  | .str _ => "str"
  | .arr _ => "list"
  | .obj _ => "dict"

/-- First value stored under a key (keys produced by `pyDict` are
unique, so this is *the* value: `dict.get`). -/
def lookupField : JsonFields → String → Option Json
  | .nil, _ => none
  | .cons k v tl, key => if k = key then some v else lookupField tl key

/-- The body of the handler's `async for` loop for one inbound frame
`msg`.  `agentF k history text` is the outcome of the `k`-th
`agent.invoke` call on this connection (`.error e` models a raised
exception with description `e`).  Returns the next call counter, the
updated history, and the envelopes sent for this frame.  Mirrors
`server_socket.py` lines 121–142: a `json.loads` failure or an
`AttributeError` from `.get`/`.strip` is caught by the same
`except Exception` and reported as an `error` envelope; only a parsed
object whose trimmed `text` is empty is silently skipped. -/
def processMessage (agentF : Nat → List Turn → String → Except String String) (k : Nat)
    (history : List Turn) (msg : String) : Nat × List Turn × List Envelope :=
  match json_loads msg with
  | .error e => (k, history, [.error ("Server error: " ++ e)])
  | .ok data =>
    match data with
    | .obj fields =>
      match (lookupField fields "text").getD (.str "") with
      | .str s =>
        let user_text := pyStrip s
        if user_text = "" then (k, history, [])
        else
          match agentF k history (user_text ++ "\n /no_think") with
          | .ok reply => (k + 1, history ++ [.user user_text, .assistant reply], [.agent reply])
          | .error e => (k + 1, history, [.error ("Server error: " ++ e)])
      | v => (k, history, [.error ("Server error: '" ++ pyTypeName v ++
          "' object has no attribute 'strip'")])
    | v => (k, history, [.error ("Server error: '" ++ pyTypeName v ++
        "' object has no attribute 'get'")])

/-- Fold `processMessage` over the inbound frames of one connection. -/
def runMessages (agentF : Nat → List Turn → String → Except String String) :
    Nat → List Turn → List String → List Turn × List Envelope
  | _, history, [] => (history, [])
  | k, history, m :: rest =>
    let r := processMessage agentF k history m
    let r2 := runMessages agentF r.1 r.2.1 rest
    (r2.1, r.2.2 ++ r2.2)

/-- The whole per-connection handler: empty initial history, one
`system` envelope first, then the message loop. -/
def handler (agentF : Nat → List Turn → String → Except String String)
    (msgs : List String) : List Turn × List Envelope :=
  let r := runMessages agentF 0 [] msgs
  (r.1, .system "Connected to DataGen agent 🚀" :: r.2)

/-- Is an envelope a `system` envelope? -/
def isSystemEnv : Envelope → Bool
  | .system _ => true
  | _ => false

/-- Lifecycle events of the websocket server.  `connect` is a handler
task entering (`CONNECTIONS[websocket] = history`), `message` one
iteration of its `async for` loop, `disconnect` any termination of the
handler — client close, network error, or a failure mid-message — whose
`finally` block runs `CONNECTIONS.pop(websocket, None)`. -/
inductive SrvEvent where
  | connect (c : Nat)
  | message (c : Nat) (msg : String)
  | disconnect (c : Nat)

/-- Process-wide server state: the identities of the open connections
(running handler tasks) and the `CONNECTIONS` store mapping each
connection to its agent-call counter and history. -/
structure SrvState where
  openConns : List Nat
  connections : List (Nat × Nat × List Turn)

/-- Keys of the `CONNECTIONS` store. -/
def storeKeys (st : List (Nat × Nat × List Turn)) : List Nat := st.map (·.1)

/-- Rewrite the entry stored under `c` (first occurrence). -/
def storeUpdate (st : List (Nat × Nat × List Turn)) (c : Nat)
    (f : Nat × List Turn → Nat × List Turn) : List (Nat × Nat × List Turn) :=
  match st with
  | [] => []
  | (k, e) :: tl => if k = c then (k, f e) :: tl else (k, e) :: storeUpdate tl c f

/-- `CONNECTIONS.pop(c, None)`: drop the entry stored under `c`. -/
def storeRemove (st : List (Nat × Nat × List Turn)) (c : Nat) :
    List (Nat × Nat × List Turn) :=
  match st with
  | [] => []
  | (k, e) :: tl => if k = c then tl else (k, e) :: storeRemove tl c

/-- One server step.  `agentF c` is the agent oracle of connection `c`. -/
def srvStep (agentF : Nat → Nat → List Turn → String → Except String String)
    (s : SrvState) : SrvEvent → SrvState
  | .connect c => { openConns := c :: s.openConns, connections := (c, 0, []) :: s.connections }
  | .message c m =>
    { s with
        connections := storeUpdate s.connections c (fun e =>
          let r := processMessage (agentF c) e.1 e.2 m
          (r.1, r.2.1)) }
  | .disconnect c =>
    { openConns := s.openConns.erase c, connections := storeRemove s.connections c }

/-- Run a trace of server events. -/
def runSrv (agentF : Nat → Nat → List Turn → String → Except String String)
    (s : SrvState) : List SrvEvent → SrvState
  | [] => s
  | e :: es => runSrv agentF (srvStep agentF s e) es

/-- Server boot state: no connections, empty store. -/
def srvInit : SrvState := { openConns := [], connections := [] }

/-- Characters with equal scalar values are equal. -/
theorem char_toNat_inj {c d : Char} (h : c.toNat = d.toNat) : c = d := by
  have h1 := Char.ofNat_toNat c
  rw [h, Char.ofNat_toNat] at h1
  exact h1.symm

/-- Every `Char` is a Unicode scalar value: below the surrogate block
or above it and below `0x110000`. -/
theorem char_toNat_valid (c : Char) :
    c.toNat < 55296 ∨ (57343 < c.toNat ∧ c.toNat < 1114112) := by
  have h := c.valid
  simp [UInt32.isValidChar, Nat.isValidChar, Char.toNat] at h ⊢
  rcases h with h | h
  · left; exact h
  · right; omega

/-- `Char.ofNat` inverts `Char.toNat` on valid scalar values. -/
theorem toNat_ofNat_valid {n : Nat} (h : n.isValidChar) : (Char.ofNat n).toNat = n := by
  simp only [Char.ofNat, h, dif_pos, Char.ofNatAux, Char.toNat]
  simp [UInt32.ofNat', UInt32.toNat]

/-- A digit character has scalar value 48–57. -/
theorem isDigit_toNat {c : Char} (h : c.isDigit = true) :
    48 ≤ c.toNat ∧ c.toNat ≤ 57 := by
  simp [Char.isDigit, decide_eq_true_eq, Char.le_def] at h
  exact h

theorem digitChar_toNat {d : Nat} (h : d < 10) : (digitChar d).toNat = 48 + d := by
  have : (48 + d).isValidChar := Or.inl (by omega)
  simpa [digitChar] using toNat_ofNat_valid this

theorem digitChar_isDigit {d : Nat} (h : d < 10) : (digitChar d).isDigit = true := by
  interval_cases d <;> decide

theorem hexVal?_hexChar {d : Nat} (h : d < 16) : hexVal? (hexChar d) = some d := by
  interval_cases d <;> decide

/-- `parseHex4` inverts `hex4` below `0x10000`. -/
theorem parseHex4_hex4 {n : Nat} (h : n < 65536) (rest : List Char) :
    parseHex4 (hex4 n ++ rest) = some (n, rest) := by
  have h1 : n / 4096 % 16 < 16 := Nat.mod_lt _ (by norm_num)
  have h2 : n / 256 % 16 < 16 := Nat.mod_lt _ (by norm_num)
  have h3 : n / 16 % 16 < 16 := Nat.mod_lt _ (by norm_num)
  have h4 : n % 16 < 16 := Nat.mod_lt _ (by norm_num)
  simp [hex4, parseHex4, hexVal?_hexChar, h1, h2, h3, h4]
  omega

/-- Is the head (if any) a non-digit?  Guards maximal-munch numeral
parsing against the following context. -/
def noDigitHead : List Char → Bool
  | [] => true
  | c :: _ => !c.isDigit

theorem lexDigits_append (ds : List Char) (rest : List Char) (acc : Nat)
    (hds : ∀ c ∈ ds, c.isDigit = true) (hrest : noDigitHead rest = true) :
    lexDigits (ds ++ rest) acc =
      (ds.foldl (fun a c => a * 10 + (c.toNat - 48)) acc, rest) := by
  induction ds generalizing acc with
  | nil =>
    cases rest with
    | nil => simp [lexDigits]
    | cons c r =>
      simp only [noDigitHead, Bool.not_eq_true'] at hrest
      simp [lexDigits, hrest]
  | cons c t ih =>
    have hc : c.isDigit = true := hds c (by simp)
    simp only [List.cons_append, lexDigits, hc, if_pos, List.append_eq]
    rw [ih _ (fun x hx => hds x (by simp [hx]))]
    simp

theorem foldl_digits_eq (L : List Nat) (acc : Nat) (hL : ∀ d ∈ L, d < 10) :
    (L.map digitChar).foldl (fun a c => a * 10 + (c.toNat - 48)) acc =
      L.foldl (fun a d => a * 10 + d) acc := by
  induction L generalizing acc with
  | nil => rfl
  | cons d T ih =>
    have hd : d < 10 := hL d (by simp)
    simp only [List.map_cons, List.foldl_cons, digitChar_toNat hd]
    rw [ih _ (fun x hx => hL x (by simp [hx]))]
    congr 1
    omega

theorem foldl_base10 (L : List Nat) (acc : Nat) :
    L.foldl (fun a d => a * 10 + d) acc = acc * 10 ^ L.length + Nat.ofDigits 10 L.reverse := by
  induction L generalizing acc with
  | nil => simp
  | cons d T ih =>
    simp only [List.foldl_cons, List.reverse_cons, List.length_cons]
    rw [ih, Nat.ofDigits_append]
    simp [Nat.ofDigits]
    rw [pow_succ]
    ring

theorem natCharsAux_eq_digits (fuel n : Nat) (h : n ≤ fuel) :
    natCharsAux fuel n = (Nat.digits 10 n).reverse.map digitChar := by
  induction fuel generalizing n with
  | zero =>
    have : n = 0 := by omega
    simp [this, natCharsAux]
  | succ f ih =>
    by_cases hn : n = 0
    · simp [hn, natCharsAux]
    · have hlt : n / 10 < n := Nat.div_lt_self (by omega) (by norm_num)
      have hle : n / 10 ≤ f := by omega
      have hd : Nat.digits 10 n = n % 10 :: Nat.digits 10 (n / 10) :=
        Nat.digits_def' (by norm_num : (1:Nat) < 10) (by omega)
      rw [natCharsAux, if_neg hn, ih _ hle, hd]
      simp

theorem pNat_natChars (n : Nat) (rest : List Char) (hrest : noDigitHead rest = true) :
    pNat (natChars n ++ rest) = some (n, rest) := by
  by_cases hn : n = 0
  · simp [hn, natChars, pNat]
  · have hNC : natChars n = (Nat.digits 10 n).reverse.map digitChar := by
      rw [natChars, if_neg hn]
      exact natCharsAux_eq_digits n n le_rfl
    rw [hNC]
    have hne : Nat.digits 10 n ≠ [] := Nat.digits_ne_nil_iff_ne_zero.mpr hn
    obtain ⟨d0, ds, hR⟩ : ∃ d0 ds, (Nat.digits 10 n).reverse = d0 :: ds := by
      cases hrev : (Nat.digits 10 n).reverse with
      | nil => exact absurd (by simpa using congrArg List.reverse hrev) hne
      | cons a b => exact ⟨a, b, rfl⟩
    have hdigsplit : Nat.digits 10 n = ds.reverse ++ [d0] := by
      have := congrArg List.reverse hR
      simpa using this
    have hmem : ∀ d ∈ Nat.digits 10 n, d < 10 := fun d hd =>
      Nat.digits_lt_base (by norm_num) hd
    have hd0 : d0 < 10 := hmem d0 (by rw [hdigsplit]; simp)
    have hds : ∀ d ∈ ds, d < 10 := fun d hd => hmem d (by rw [hdigsplit]; simp [hd])
    have hd0ne : d0 ≠ 0 := by
      have h1 : (Nat.digits 10 n).getLast? = some d0 := by
        rw [hdigsplit]
        exact List.getLast?_concat _
      have h2 := Nat.getLast_digit_ne_zero 10 hn
      rw [List.getLast?_eq_getLast _ hne] at h1
      simp only [Option.some.injEq] at h1
      omega
    rw [hR]
    have hdigitchar : digitChar d0 ≠ '0' := by
      intro h
      have h10 := digitChar_toNat hd0
      rw [h] at h10
      rw [show ('0' : Char).toNat = 48 from rfl] at h10
      omega
    simp only [List.map_cons, List.cons_append, pNat, hdigitchar, if_neg,
      digitChar_isDigit hd0, if_pos]
    rw [lexDigits_append _ _ _ (by
        intro c hc
        simp only [List.mem_map] at hc
        obtain ⟨d, hd, rfl⟩ := hc
        exact digitChar_isDigit (hds d hd)) hrest]
    rw [foldl_digits_eq _ _ hds, foldl_base10, digitChar_toNat hd0]
    have hofd : Nat.ofDigits 10 ([d0] : List Nat) = d0 := by
      simp [Nat.ofDigits]
    have hval : Nat.ofDigits 10 (Nat.digits 10 n) = n := Nat.ofDigits_digits 10 n
    rw [hdigsplit, Nat.ofDigits_append, hofd] at hval
    have key : (48 + d0 - 48) * 10 ^ ds.length + Nat.ofDigits 10 ds.reverse = n := by
      have h48 : 48 + d0 - 48 = d0 := by omega
      rw [h48, ← hval]
      simp only [List.length_reverse]
      ring
    rw [key]
    simp


theorem natChars_head (n : Nat) :
    ∃ c t, natChars n = c :: t ∧ c.isDigit = true := by
  by_cases hn : n = 0
  · exact ⟨'0', [], by simp [hn, natChars], by decide⟩
  · have hNC : natChars n = (Nat.digits 10 n).reverse.map digitChar := by
      rw [natChars, if_neg hn]
      exact natCharsAux_eq_digits n n le_rfl
    have hne : Nat.digits 10 n ≠ [] := Nat.digits_ne_nil_iff_ne_zero.mpr hn
    obtain ⟨d0, ds, hR⟩ : ∃ d0 ds, (Nat.digits 10 n).reverse = d0 :: ds := by
      cases hrev : (Nat.digits 10 n).reverse with
      | nil => exact absurd (by simpa using congrArg List.reverse hrev) hne
      | cons a b => exact ⟨a, b, rfl⟩
    have hd0 : d0 < 10 := Nat.digits_lt_base (by norm_num)
      (by rw [← List.mem_reverse, hR]; simp)
    exact ⟨digitChar d0, ds.map digitChar, by rw [hNC, hR]; simp,
      digitChar_isDigit hd0⟩

/-- `pInt` inverts `intChars`. -/
theorem pInt_intChars (n : Int) (rest : List Char) (hrest : noDigitHead rest = true) :
    pInt (intChars n ++ rest) = some (n, rest) := by
  by_cases hneg : n < 0
  · rw [intChars, if_pos hneg]
    simp only [List.cons_append, pInt, if_pos rfl, pNat_natChars _ _ hrest, Option.map]
    have hn : -((n.natAbs : Int)) = n := by omega
    rw [hn]
    simp
  · rw [intChars, if_neg hneg]
    obtain ⟨c, t, hct, hdig⟩ := natChars_head n.toNat
    have hcne : c ≠ '-' := by
      intro h
      have := isDigit_toNat hdig
      rw [h] at this
      rw [show ('-' : Char).toNat = 45 from rfl] at this
      omega
    rw [hct]
    simp only [List.cons_append, pInt, if_neg hcne]
    rw [show c :: (t ++ rest) = (c :: t) ++ rest from rfl, ← hct,
      pNat_natChars _ _ hrest]
    simp only [Option.map]
    have hn : ((n.toNat : Int)) = n := by omega
    rw [hn]

/-- Scalar values below the surrogate range are valid. -/
theorem isValidChar_of_lt {n : Nat} (h : n < 55296) : n.isValidChar := Or.inl h

/-- Closing quote ends the string body. -/
theorem pStrBody_end (f : Nat) (r : List Char) : pStrBody (f + 1) ('"' :: r) = .ok ([], r) := by
  simp [pStrBody]

/-- An unescaped, non-control character is consumed as itself. -/
theorem pStrBody_raw (f : Nat) (c : Char) (r : List Char) (h1 : ¬c = '"') (h2 : ¬c = '\\')
    (h3 : ¬c.toNat < 32) :
    pStrBody (f + 1) (c :: r) =
      match pStrBody f r with
      | .ok (cs, rest) => .ok (c :: cs, rest)
      | .error e => .error e := by
  simp only [pStrBody, if_neg h1, if_neg h2, if_neg h3]

/-- A two-character escape is consumed as its table entry. -/
theorem pStrBody_esc (f : Nat) (e ec : Char) (r : List Char) (hu : ¬e = 'u')
    (h : (if e = '"' then some '"'
      else if e = '\\' then some '\\'
      else if e = '/' then some '/'
      else if e = 'b' then some (Char.ofNat 8)
      else if e = 'f' then some (Char.ofNat 12)
      else if e = 'n' then some '\n'
      else if e = 'r' then some '\r'
      else if e = 't' then some '\t'
      else none) = some ec) :
    pStrBody (f + 1) ('\\' :: e :: r) =
      match pStrBody f r with
      | .ok (cs, rest) => .ok (ec :: cs, rest)
      | .error e => .error e := by
  simp only [pStrBody, if_neg hu]
  simp only [show ¬(('\\' : Char) = '"') from by decide, if_false,
    show (('\\' : Char) = '\\') from rfl, if_true, if_neg hu, h]

/-- A `\uXXXX` escape outside the high-surrogate range is consumed as
its scalar value. -/
theorem pStrBody_u (f : Nat) (r r3 : List Char) (n : Nat)
    (hhex : parseHex4 r = some (n, r3)) (hns : ¬(55296 ≤ n ∧ n ≤ 56319)) :
    pStrBody (f + 1) ('\\' :: 'u' :: r) =
      match pStrBody f r3 with
      | .ok (cs, rest) => .ok (Char.ofNat n :: cs, rest)
      | .error e => .error e := by
  simp only [pStrBody, show ¬(('\\' : Char) = '"') from by decide, if_false,
    show (('\\' : Char) = '\\') from rfl, if_true, show (('u' : Char) = 'u') from rfl,
    hhex, if_neg hns]

/-- A high/low surrogate escape pair is consumed as the combined
astral scalar. -/
theorem pStrBody_u_pair (f : Nat) (r r4 r5 : List Char) (n m : Nat)
    (hhex : parseHex4 r = some (n, '\\' :: 'u' :: r4)) (hhex2 : parseHex4 r4 = some (m, r5))
    (hn : 55296 ≤ n ∧ n ≤ 56319) (hm : 56320 ≤ m ∧ m ≤ 57343) :
    pStrBody (f + 1) ('\\' :: 'u' :: r) =
      match pStrBody f r5 with
      | .ok (cs, rest) => .ok (Char.ofNat (65536 + (n - 55296) * 1024 + (m - 56320)) :: cs, rest)
      | .error e => .error e := by
  simp only [pStrBody, show ¬(('\\' : Char) = '"') from by decide, if_false,
    show (('\\' : Char) = '\\') from rfl, if_true, show (('u' : Char) = 'u') from rfl,
    hhex, if_pos hn, hhex2, if_pos hm,
    show ((('\\' : Char) = '\\') ∧ (('u' : Char) = 'u')) from ⟨rfl, rfl⟩, and_self]

/-- `pStrBody` inverts `escapeString` up to the closing quote, for both
escaping modes. -/
theorem pStrBody_escape (a : Bool) (cs : List Char) (fuel : Nat) (rest : List Char)
    (hf : cs.length + 1 ≤ fuel) :
    pStrBody fuel (cs.flatMap (escapeChar a) ++ '"' :: rest) = .ok (cs, rest) := by
  induction cs generalizing fuel with
  | nil =>
    obtain ⟨f, rfl⟩ : ∃ f, fuel = f + 1 := ⟨fuel - 1, by omega⟩
    simpa using pStrBody_end f rest
  | cons c cs ih =>
    obtain ⟨f, rfl⟩ : ∃ f, fuel = f + 1 := ⟨fuel - 1, by omega⟩
    have hf2 : cs.length + 1 ≤ f := by
      simp only [List.length_cons] at hf
      omega
    have IH := ih f hf2
    rw [List.flatMap_cons, List.append_assoc]
    by_cases h1 : c = '"'
    · subst h1
      rw [show escapeChar a '"' = ['\\', '"'] from by simp [escapeChar]]
      rw [List.cons_append, List.cons_append, List.nil_append,
        pStrBody_esc f '"' '"' _ (by decide) (by decide), IH]
    · by_cases h2 : c = '\\'
      · subst h2
        rw [show escapeChar a '\\' = ['\\', '\\'] from by simp [escapeChar]]
        rw [List.cons_append, List.cons_append, List.nil_append,
          pStrBody_esc f '\\' '\\' _ (by decide) (by decide), IH]
      · by_cases h3 : c = '\n'
        · subst h3
          rw [show escapeChar a '\n' = ['\\', 'n'] from by simp [escapeChar]]
          rw [List.cons_append, List.cons_append, List.nil_append,
            pStrBody_esc f 'n' '\n' _ (by decide) (by decide), IH]
        · by_cases h4 : c = '\r'
          · subst h4
            rw [show escapeChar a '\r' = ['\\', 'r'] from by simp [escapeChar]]
            rw [List.cons_append, List.cons_append, List.nil_append,
              pStrBody_esc f 'r' '\r' _ (by decide) (by decide), IH]
          · by_cases h5 : c = '\t'
            · subst h5
              rw [show escapeChar a '\t' = ['\\', 't'] from by simp [escapeChar]]
              rw [List.cons_append, List.cons_append, List.nil_append,
                pStrBody_esc f 't' '\t' _ (by decide) (by decide), IH]
            · by_cases h6 : c.toNat = 8
              · have hc : c = Char.ofNat 8 := by
                  apply char_toNat_inj
                  rw [toNat_ofNat_valid (isValidChar_of_lt (by norm_num)), h6]
                rw [show escapeChar a c = ['\\', 'b'] from by
                  simp [escapeChar, h1, h2, h3, h4, h5, h6]]
                rw [List.cons_append, List.cons_append, List.nil_append,
                  pStrBody_esc f 'b' (Char.ofNat 8) _ (by decide) (by decide), IH, ← hc]
              · by_cases h7 : c.toNat = 12
                · have hc : c = Char.ofNat 12 := by
                    apply char_toNat_inj
                    rw [toNat_ofNat_valid (isValidChar_of_lt (by norm_num)), h7]
                  rw [show escapeChar a c = ['\\', 'f'] from by
                    simp [escapeChar, h1, h2, h3, h4, h5, h6, h7]]
                  rw [List.cons_append, List.cons_append, List.nil_append,
                    pStrBody_esc f 'f' (Char.ofNat 12) _ (by decide) (by decide), IH, ← hc]
                · by_cases h8 : c.toNat < 32
                  · rw [show escapeChar a c = '\\' :: 'u' :: hex4 c.toNat from by
                      simp [escapeChar, h1, h2, h3, h4, h5, h6, h7, h8]]
                    rw [List.cons_append, List.cons_append,
                      pStrBody_u f _ _ c.toNat (parseHex4_hex4 (by omega) _) (by omega),
                      IH, Char.ofNat_toNat]
                  · by_cases h9 : (a && decide (126 < c.toNat)) = true
                    · by_cases hbmp : c.toNat < 65536
                      · rw [show escapeChar a c = '\\' :: 'u' :: hex4 c.toNat from by
                          simp only [escapeChar, h1, h2, h3, h4, h5, h6, h7, h8, h9, hbmp,
                            if_neg, if_false, if_pos, if_true]]
                        have hns : ¬(55296 ≤ c.toNat ∧ c.toNat ≤ 56319) := by
                          rcases char_toNat_valid c with h | h <;> omega
                        rw [List.cons_append, List.cons_append,
                          pStrBody_u f _ _ c.toNat (parseHex4_hex4 (by omega) _) hns,
                          IH, Char.ofNat_toNat]
                      · have hhi : 126 < c.toNat := by
                          rcases Bool.and_eq_true_iff.mp h9 with ⟨_, hd⟩
                          exact of_decide_eq_true hd
                        have hlt : c.toNat < 1114112 := by
                          rcases char_toNat_valid c with h | h <;> omega
                        rw [show escapeChar a c =
                            ('\\' :: 'u' :: hex4 (55296 + (c.toNat - 65536) / 1024)) ++
                            ('\\' :: 'u' :: hex4 (56320 + (c.toNat - 65536) % 1024)) from by
                          simp only [escapeChar, h1, h2, h3, h4, h5, h6, h7, h8, h9, hbmp,
                            if_neg, if_false, if_pos, if_true]]
                        have hq : (c.toNat - 65536) / 1024 < 1024 := by
                          have : c.toNat - 65536 < 1048576 := by omega
                          omega
                        rw [List.append_assoc, List.cons_append, List.cons_append,
                          pStrBody_u_pair f _ _ _
                            (55296 + (c.toNat - 65536) / 1024)
                            (56320 + (c.toNat - 65536) % 1024)
                            (by
                              rw [List.cons_append, List.cons_append]
                              exact parseHex4_hex4 (by omega) _)
                            (parseHex4_hex4 (by
                              have := Nat.mod_lt (c.toNat - 65536) (y := 1024) (by norm_num)
                              omega) _)
                            (by omega)
                            (by
                              have := Nat.mod_lt (c.toNat - 65536) (y := 1024) (by norm_num)
                              omega),
                          IH]
                        have hcomb : 65536 + (55296 + (c.toNat - 65536) / 1024 - 55296) * 1024 +
                            (56320 + (c.toNat - 65536) % 1024 - 56320) = c.toNat := by
                          have := Nat.div_add_mod (c.toNat - 65536) 1024
                          omega
                        rw [hcomb, Char.ofNat_toNat]
                    · rw [show escapeChar a c = [c] from by
                        simp [escapeChar, h1, h2, h3, h4, h5, h6, h7, h8, h9]]
                      rw [List.cons_append, List.nil_append,
                        pStrBody_raw f c _ h1 h2 h8, IH]

theorem skipWs_cons_of_not {c : Char} (l : List Char) (h : isJsonWs c = false) :
    skipWs (c :: l) = c :: l := by
  simp [skipWs, List.dropWhile_cons, h]

theorem skipWs_append_ws {w : List Char} (l : List Char)
    (hw : ∀ c ∈ w, isJsonWs c = true) : skipWs (w ++ l) = skipWs l := by
  induction w with
  | nil => simp
  | cons c t ih =>
    simp only [List.cons_append, skipWs, List.dropWhile_cons, hw c (by simp)]
    exact ih (fun x hx => hw x (by simp [hx]))

theorem nlIndent_ws (d : Nat) : ∀ c ∈ nlIndent d, isJsonWs c = true := by
  intro c hc
  simp only [nlIndent, List.mem_cons] at hc
  rcases hc with rfl | hc
  · rfl
  · rw [List.eq_of_mem_replicate hc]
    rfl

theorem openInd_ws (p : Bool) (d : Nat) : ∀ c ∈ openInd p d, isJsonWs c = true := by
  intro c hc
  cases p with
  | false => simp [openInd] at hc
  | true => exact nlIndent_ws d c (by simpa [openInd] using hc)

theorem closeInd_ws (p : Bool) (d : Nat) : ∀ c ∈ closeInd p d, isJsonWs c = true := by
  intro c hc
  cases p with
  | false => simp [closeInd] at hc
  | true => exact nlIndent_ws d c (by simpa [closeInd] using hc)

theorem itemSep_shape (p : Bool) (d : Nat) :
    ∃ w, itemSep p d = ',' :: w ∧ ∀ c ∈ w, isJsonWs c = true := by
  cases p with
  | false => exact ⟨[' '], rfl, by intro c hc; simp at hc; simp [hc]; rfl⟩
  | true => exact ⟨nlIndent d, rfl, nlIndent_ws d⟩

/-- `pVal` ignores leading whitespace. -/
theorem pVal_ws {w : List Char} (fuel : Nat) (l : List Char)
    (hw : ∀ c ∈ w, isJsonWs c = true) : pVal fuel (w ++ l) = pVal fuel l := by
  cases fuel with
  | zero => rfl
  | succ f => simp only [pVal, skipWs_append_ws l hw]

theorem pItems_ws {w : List Char} (fuel : Nat) (l : List Char)
    (hw : ∀ c ∈ w, isJsonWs c = true) : pItems fuel (w ++ l) = pItems fuel l := by
  cases fuel with
  | zero => rfl
  | succ f => simp only [pItems, pVal_ws f l hw]

theorem pMembers_ws {w : List Char} (fuel : Nat) (l : List Char)
    (hw : ∀ c ∈ w, isJsonWs c = true) : pMembers fuel (w ++ l) = pMembers fuel l := by
  cases fuel with
  | zero => rfl
  | succ f => simp only [pMembers, skipWs_append_ws l hw]

theorem escapeChar_length_pos (a : Bool) (c : Char) : 1 ≤ (escapeChar a c).length := by
  unfold escapeChar
  split_ifs <;> simp [hex4]

theorem escapeString_length (a : Bool) (s : String) :
    s.data.length ≤ (escapeString a s).length := by
  unfold escapeString
  induction s.data with
  | nil => simp
  | cons c t ih =>
    rw [List.flatMap_cons]
    simp only [List.length_append, List.length_cons]
    have := escapeChar_length_pos a c
    omega

theorem string_mk_data (s : String) : String.mk s.data = s := rfl

/-- A digit character is neither whitespace, a comma, a closing
bracket, a closing brace, nor one of the value-keyword heads. -/
theorem digit_head_facts {c : Char} (h : c.isDigit = true) :
    isJsonWs c = false ∧ c ≠ ']' ∧ c ≠ '\x7d' ∧ c.isDigit = true := by
  obtain ⟨h1, h2⟩ := isDigit_toNat h
  refine ⟨?_, ?_, ?_, h⟩
  · simp only [isJsonWs, Bool.or_eq_false_iff, decide_eq_false_iff_not]
    refine ⟨⟨⟨?_, ?_⟩, ?_⟩, ?_⟩ <;>
      (intro hc; rw [hc] at h1 h2; revert h1 h2; decide)
  · intro hc; rw [hc] at h1 h2; revert h1 h2; decide
  · intro hc; rw [hc] at h1 h2; revert h1 h2; decide

/-- The first character printed for any value: it exists, is not
whitespace, and is not a closing bracket or brace. -/
theorem printVal_starts (a p : Bool) (d : Nat) (x : Json) :
    ∃ c t, printVal a p d x = c :: t ∧ isJsonWs c = false ∧ c ≠ ']' ∧ c ≠ '\x7d' := by
  cases x with
  | num n =>
    by_cases hneg : n < 0
    · refine ⟨'-', natChars n.natAbs, by simp [printVal, intChars, hneg], ?_, ?_, ?_⟩ <;> decide
    · obtain ⟨c, t, hct, hdig⟩ := natChars_head n.toNat
      obtain ⟨w1, w2, w3, _⟩ := digit_head_facts hdig
      exact ⟨c, t, by simp [printVal, intChars, hneg, hct], w1, w2, w3⟩
  | bool b =>
    cases b with
    | true => refine ⟨'t', _, rfl, ?_, ?_, ?_⟩ <;> decide
    | false => refine ⟨'f', _, rfl, ?_, ?_, ?_⟩ <;> decide
  | null => refine ⟨'n', _, rfl, ?_, ?_, ?_⟩ <;> decide
  | str s => refine ⟨'"', _, rfl, ?_, ?_, ?_⟩ <;> decide
  | arr xs =>
    cases xs with
    | nil => refine ⟨'[', _, rfl, ?_, ?_, ?_⟩ <;> decide
    | cons y ys => refine ⟨'[', _, rfl, ?_, ?_, ?_⟩ <;> decide
  | obj fs =>
    cases fs with
    | nil => refine ⟨'\x7b', _, rfl, ?_, ?_, ?_⟩ <;> decide
    | cons k v fs2 => refine ⟨'\x7b', _, rfl, ?_, ?_, ?_⟩ <;> decide

mutual
/-- Well-formedness of a value as an image of a Python structure:
every object has pairwise-distinct keys (Python `dict`s cannot hold
duplicates). -/
def wfVal : Json → Bool
  | .arr xs => wfList xs
  | .obj fs => wfFields fs
  | _ => true

/-- All elements well-formed. -/
def wfList : JsonList → Bool
  | .nil => true
  | .cons x xs => wfVal x && wfList xs

/-- Keys pairwise distinct, values well-formed. -/
def wfFields : JsonFields → Bool
  | .nil => true
  | .cons k v fs => !hasKey fs k && wfVal v && wfFields fs
end

theorem jfAppend_nil_right : (a : JsonFields) → jfAppend a .nil = a
  | .nil => rfl
  | .cons k v tl => by simp [jfAppend, jfAppend_nil_right tl]

theorem jfAppend_assoc : (a : JsonFields) → (b c : JsonFields) →
    jfAppend (jfAppend a b) c = jfAppend a (jfAppend b c)
  | .nil, b, c => rfl
  | .cons k v tl, b, c => by simp [jfAppend, jfAppend_assoc tl b c]

theorem hasKey_jfAppend : (a : JsonFields) → (b : JsonFields) → (k : String) →
    hasKey (jfAppend a b) k = (hasKey a k || hasKey b k)
  | .nil, b, k => by simp [jfAppend, hasKey]
  | .cons k2 v tl, b, k => by simp [jfAppend, hasKey, hasKey_jfAppend tl b k, Bool.or_assoc]

theorem pyDictGo_disjoint : (fs : JsonFields) → (acc : JsonFields) →
    wfFields fs = true → (∀ k, hasKey fs k = true → hasKey acc k = false) →
    pyDictGo acc fs = jfAppend acc fs
  | .nil, acc, _, _ => by simp [pyDictGo, jfAppend_nil_right]
  | .cons k v tl, acc, hwf, hdis => by
    simp only [wfFields, Bool.and_eq_true, Bool.not_eq_true'] at hwf
    obtain ⟨⟨hk, _⟩, hwtl⟩ := hwf
    have hacc : hasKey acc k = false := hdis k (by simp [hasKey])
    simp only [pyDictGo, hacc, Bool.false_eq_true, if_neg, if_false]
    rw [pyDictGo_disjoint tl _ hwtl (by
      intro k2 hk2
      rw [hasKey_jfAppend]
      have h1 : hasKey acc k2 = false := hdis k2 (by simp [hasKey, hk2])
      have h2 : hasKey (.cons k v .nil) k2 = false := by
        simp only [hasKey, Bool.or_false, decide_eq_false_iff_not]
        intro hkk
        rw [hkk] at hk
        rw [hk] at hk2
        exact absurd hk2 (by simp)
      simp [h1, h2])]
    rw [jfAppend_assoc]
    rfl

/-- Python `dict` construction is the identity on duplicate-free
member lists. -/
theorem pyDict_wf (fs : JsonFields) (hwf : wfFields fs = true) : pyDict fs = fs := by
  rw [pyDict, pyDictGo_disjoint fs .nil hwf (fun k _ => rfl)]
  rfl

mutual
/-- Fuel consumed by `pVal` on the printed form of a value. -/
def fsizeVal : Json → Nat
  | .arr xs => 1 + fsizeItems xs
  | .obj fs => 1 + fsizeMembers fs
  | _ => 1

/-- Fuel consumed by `pItems`. -/
def fsizeItems : JsonList → Nat
  | .nil => 0
  | .cons x xs => 1 + fsizeVal x + fsizeItems xs

/-- Fuel consumed by `pMembers`. -/
def fsizeMembers : JsonFields → Nat
  | .nil => 0
  | .cons _ v fs => 1 + fsizeVal v + fsizeMembers fs
end

theorem fsizeVal_pos : (x : Json) → 1 ≤ fsizeVal x
  | .arr _ => by simp [fsizeVal]
  | .obj _ => by simp [fsizeVal]
  | .null | .bool _ | .num _ | .str _ => le_refl _

theorem pVal_step_null (f : Nat) (l r : List Char)
    (h : skipWs l = 'n' :: 'u' :: 'l' :: 'l' :: r) :
    pVal (f + 1) l = .ok (.null, r) := by
  simp [pVal, h]

theorem pVal_step_true (f : Nat) (l r : List Char)
    (h : skipWs l = 't' :: 'r' :: 'u' :: 'e' :: r) :
    pVal (f + 1) l = .ok (.bool true, r) := by
  simp [pVal, h]

theorem pVal_step_false (f : Nat) (l r : List Char)
    (h : skipWs l = 'f' :: 'a' :: 'l' :: 's' :: 'e' :: r) :
    pVal (f + 1) l = .ok (.bool false, r) := by
  simp [pVal, h]

theorem pVal_step_str (f : Nat) (l r : List Char) (h : skipWs l = '"' :: r) :
    pVal (f + 1) l =
      match pStrBody (r.length + 1) r with
      | .ok (cs, rest) => .ok (.str (String.mk cs), rest)
      | .error e => .error e := by
  simp [pVal, h]

theorem pVal_step_num (f : Nat) (l r : List Char) (c : Char) (h : skipWs l = c :: r)
    (hc : c = '-' ∨ c.isDigit = true) :
    pVal (f + 1) l =
      match pInt (c :: r) with
      | some (n, rest) => .ok (.num n, rest)
      | none => .error "Expecting value" := by
  have hcn : c.toNat = 45 ∨ (48 ≤ c.toNat ∧ c.toNat ≤ 57) := by
    rcases hc with rfl | hd
    · left; rfl
    · right; exact isDigit_toNat hd
  have ne1 : ¬c = 'n' := by intro hx; rw [hx] at hcn; revert hcn; decide
  have ne2 : ¬c = 't' := by intro hx; rw [hx] at hcn; revert hcn; decide
  have ne3 : ¬c = 'f' := by intro hx; rw [hx] at hcn; revert hcn; decide
  have ne4 : ¬c = '"' := by intro hx; rw [hx] at hcn; revert hcn; decide
  have ne5 : ¬c = '[' := by intro hx; rw [hx] at hcn; revert hcn; decide
  have ne6 : ¬c = '\x7b' := by intro hx; rw [hx] at hcn; revert hcn; decide
  have hcond : (c = '-' || c.isDigit) = true := by
    rcases hc with rfl | hd
    · simp
    · simp [hd]
  simp only [pVal, h, if_neg ne1, if_neg ne2, if_neg ne3, if_neg ne4, if_neg ne5,
    if_neg ne6, hcond, if_true]

theorem pVal_step_arr_nil (f : Nat) (l r r2 : List Char) (h : skipWs l = '[' :: r)
    (h2 : skipWs r = ']' :: r2) :
    pVal (f + 1) l = .ok (.arr .nil, r2) := by
  simp [pVal, h, h2]

theorem pVal_step_arr_go (f : Nat) (l r r2 : List Char) (c2 : Char) (h : skipWs l = '[' :: r)
    (h2 : skipWs r = c2 :: r2) (hc2 : ¬c2 = ']') :
    pVal (f + 1) l =
      match pItems f r with
      | .ok (xs, rest) => .ok (.arr xs, rest)
      | .error e => .error e := by
  simp [pVal, h, h2, hc2]

theorem pVal_step_obj_nil (f : Nat) (l r r2 : List Char) (h : skipWs l = '\x7b' :: r)
    (h2 : skipWs r = '\x7d' :: r2) :
    pVal (f + 1) l = .ok (.obj .nil, r2) := by
  simp [pVal, h, h2]

theorem pVal_step_obj_go (f : Nat) (l r r2 : List Char) (c2 : Char) (h : skipWs l = '\x7b' :: r)
    (h2 : skipWs r = c2 :: r2) (hc2 : ¬c2 = '\x7d') :
    pVal (f + 1) l =
      match pMembers f r with
      | .ok (fs, rest) => .ok (.obj (pyDict fs), rest)
      | .error e => .error e := by
  simp [pVal, h, h2, hc2]

theorem noDigitHead_close_bracket (p : Bool) (d : Nat) (X : List Char) :
    noDigitHead (closeInd p d ++ ']' :: X) = true := by
  cases p with
  | false => simp [closeInd, noDigitHead]
  | true => simp [closeInd, nlIndent, noDigitHead]

theorem noDigitHead_close_brace (p : Bool) (d : Nat) (X : List Char) :
    noDigitHead (closeInd p d ++ '\x7d' :: X) = true := by
  cases p with
  | false => simp [closeInd, noDigitHead]
  | true => simp [closeInd, nlIndent, noDigitHead]

theorem noDigitHead_itemSep (p : Bool) (d : Nat) (X : List Char) :
    noDigitHead (itemSep p d ++ X) = true := by
  obtain ⟨w, hsep, _⟩ := itemSep_shape p d
  rw [hsep, List.cons_append]
  rfl

theorem printArrItems_cons_eq (a p : Bool) (dd : Nat) (x : Json) (xs : JsonList) :
    ∃ suf, printArrItems a p dd (.cons x xs) = printVal a p dd x ++ suf := by
  cases xs with
  | nil => exact ⟨[], by simp [printArrItems]⟩
  | cons y ys =>
    exact ⟨itemSep p dd ++ printArrItems a p dd (.cons y ys),
      by simp [printArrItems, List.append_assoc]⟩

mutual
/-- The parser inverts the printer on values (for any escaping and
layout mode), leaving exactly `rest` unconsumed. -/
theorem rtVal (a p : Bool) (d : Nat) (x : Json) (fuel : Nat) (rest : List Char)
    (hwf : wfVal x = true) (hfu : fsizeVal x ≤ fuel) (hrest : noDigitHead rest = true) :
    pVal fuel (printVal a p d x ++ rest) = .ok (x, rest) := by
  obtain ⟨f, rfl⟩ : ∃ f, fuel = f + 1 := ⟨fuel - 1, by have := fsizeVal_pos x; omega⟩
  cases x with
  | null =>
    exact pVal_step_null f _ rest (by
      rw [show printVal a p d .null ++ rest = 'n' :: ('u' :: 'l' :: 'l' :: rest) from rfl]
      exact skipWs_cons_of_not _ (by decide))
  | bool b =>
    cases b with
    | true =>
      exact pVal_step_true f _ rest (by
        rw [show printVal a p d (.bool true) ++ rest = 't' :: ('r' :: 'u' :: 'e' :: rest) from rfl]
        exact skipWs_cons_of_not _ (by decide))
    | false =>
      exact pVal_step_false f _ rest (by
        rw [show printVal a p d (.bool false) ++ rest =
          'f' :: ('a' :: 'l' :: 's' :: 'e' :: rest) from rfl]
        exact skipWs_cons_of_not _ (by decide))
  | num n =>
    by_cases hneg : n < 0
    · have hshape : printVal a p d (.num n) ++ rest = '-' :: (natChars n.natAbs ++ rest) := by
        simp [printVal, intChars, hneg]
      rw [hshape,
        pVal_step_num f _ (natChars n.natAbs ++ rest) '-'
          (skipWs_cons_of_not _ (by decide)) (Or.inl rfl),
        show '-' :: (natChars n.natAbs ++ rest) = intChars n ++ rest from by
          simp [intChars, hneg],
        pInt_intChars n rest hrest]
    · obtain ⟨c, t, hct, hdig⟩ := natChars_head n.toNat
      have hshape : printVal a p d (.num n) ++ rest = c :: (t ++ rest) := by
        simp [printVal, intChars, hneg, hct]
      rw [hshape,
        pVal_step_num f _ (t ++ rest) c
          (skipWs_cons_of_not _ (digit_head_facts hdig).1) (Or.inr hdig),
        show c :: (t ++ rest) = intChars n ++ rest from by simp [intChars, hneg, hct],
        pInt_intChars n rest hrest]
  | str s =>
    have hshape : printVal a p d (.str s) ++ rest =
        '"' :: (s.data.flatMap (escapeChar a) ++ '"' :: rest) := by
      simp [printVal, quoteString, escapeString]
    rw [hshape, pVal_step_str f _ _ (skipWs_cons_of_not _ (by decide))]
    rw [pStrBody_escape a s.data _ rest (by
      have h1 := escapeString_length a s
      simp only [escapeString] at h1
      simp only [List.length_append, List.length_cons]
      omega)]
  | arr xs =>
    cases xs with
    | nil =>
      refine pVal_step_arr_nil f _ (']' :: rest) rest ?_ ?_
      · rw [show printVal a p d (.arr .nil) ++ rest = '[' :: (']' :: rest) from rfl]
        exact skipWs_cons_of_not _ (by decide)
      · exact skipWs_cons_of_not _ (by decide)
    | cons x xs =>
      have hshape : printVal a p d (.arr (.cons x xs)) ++ rest =
          '[' :: (openInd p (d + 1) ++ (printArrItems a p (d + 1) (.cons x xs) ++
            (closeInd p d ++ ']' :: rest))) := by
        simp [printVal, List.append_assoc]
      obtain ⟨c0, t0, hp0, hw0, hr0, hb0⟩ := printVal_starts a p (d + 1) x
      obtain ⟨suf, hsuf⟩ := printArrItems_cons_eq a p (d + 1) x xs
      have hskip2 : skipWs (openInd p (d + 1) ++ (printArrItems a p (d + 1) (.cons x xs) ++
          (closeInd p d ++ ']' :: rest))) =
          c0 :: (t0 ++ (suf ++ (closeInd p d ++ ']' :: rest))) := by
        rw [skipWs_append_ws _ (openInd_ws p (d + 1)), hsuf, hp0]
        rw [List.cons_append, List.cons_append, List.append_assoc]
        exact skipWs_cons_of_not _ hw0
      rw [hshape, pVal_step_arr_go f _ _ _ c0 (skipWs_cons_of_not _ (by decide)) hskip2 hr0]
      rw [pItems_ws f _ (openInd_ws p (d + 1))]
      rw [rtItems a p d x xs f rest
        (by simp only [wfVal, wfList, Bool.and_eq_true] at hwf; exact hwf.1)
        (by simp only [wfVal, wfList, Bool.and_eq_true] at hwf; exact hwf.2)
        (by simp only [fsizeVal] at hfu; omega) hrest]
  | obj fs =>
    cases fs with
    | nil =>
      refine pVal_step_obj_nil f _ ('\x7d' :: rest) rest ?_ ?_
      · rw [show printVal a p d (.obj .nil) ++ rest = '\x7b' :: ('\x7d' :: rest) from rfl]
        exact skipWs_cons_of_not _ (by decide)
      · exact skipWs_cons_of_not _ (by decide)
    | cons k v fs =>
      have hshape : printVal a p d (.obj (.cons k v fs)) ++ rest =
          '\x7b' :: (openInd p (d + 1) ++ (printObjItems a p (d + 1) (.cons k v fs) ++
            (closeInd p d ++ '\x7d' :: rest))) := by
        simp [printVal, List.append_assoc]
      have hobjshape : ∃ suf, printObjItems a p (d + 1) (.cons k v fs) =
          '"' :: (escapeString a k ++ '"' :: suf) := by
        cases fs with
        | nil =>
          exact ⟨':' :: ' ' :: printVal a p (d + 1) v, by
            simp [printObjItems, quoteString, List.append_assoc]⟩
        | cons k2 v2 fs2 =>
          exact ⟨':' :: ' ' :: (printVal a p (d + 1) v ++ (itemSep p (d + 1) ++
            printObjItems a p (d + 1) (.cons k2 v2 fs2))), by
            simp [printObjItems, quoteString, List.append_assoc]⟩
      obtain ⟨suf, hsuf⟩ := hobjshape
      have hskip2 : skipWs (openInd p (d + 1) ++ (printObjItems a p (d + 1) (.cons k v fs) ++
          (closeInd p d ++ '\x7d' :: rest))) =
          '"' :: ((escapeString a k ++ '"' :: suf) ++ (closeInd p d ++ '\x7d' :: rest)) := by
        rw [skipWs_append_ws _ (openInd_ws p (d + 1)), hsuf, List.cons_append]
        exact skipWs_cons_of_not _ (by decide)
      rw [hshape, pVal_step_obj_go f _ _ _ '"' (skipWs_cons_of_not _ (by decide)) hskip2
        (by decide)]
      rw [pMembers_ws f _ (openInd_ws p (d + 1))]
      rw [rtMembers a p d k v fs f rest
        (by simp only [wfVal, wfFields, Bool.and_eq_true] at hwf; exact hwf.1.2)
        (by simp only [wfVal, wfFields, Bool.and_eq_true] at hwf; exact hwf.2)
        (by simp only [fsizeVal] at hfu; omega)]
      simp only [pyDict_wf _ (show wfFields (.cons k v fs) = true from by
        simpa only [wfVal] using hwf)]

termination_by sizeOf x
decreasing_by all_goals
  (simp_wf
   try subst_vars
   try simp only [Json.arr.sizeOf_spec, Json.obj.sizeOf_spec, JsonList.cons.sizeOf_spec,
     JsonFields.cons.sizeOf_spec, JsonList.nil.sizeOf_spec, JsonFields.nil.sizeOf_spec]
   try omega)

/-- The parser inverts the printer on a non-empty item list followed by
the closing layout and `]`. -/
theorem rtItems (a p : Bool) (d : Nat) (x : Json) (xs : JsonList) (fuel : Nat)
    (rest : List Char) (hwx : wfVal x = true) (hwxs : wfList xs = true)
    (hfu : fsizeItems (.cons x xs) ≤ fuel) (hrest : noDigitHead rest = true) :
    pItems fuel (printArrItems a p (d + 1) (.cons x xs) ++
      (closeInd p d ++ ']' :: rest)) = .ok (.cons x xs, rest) := by
  obtain ⟨f, rfl⟩ : ∃ f, fuel = f + 1 := ⟨fuel - 1, by
    simp only [fsizeItems] at hfu; omega⟩
  cases xs with
  | nil =>
    simp only [printArrItems, pItems]
    rw [rtVal a p (d + 1) x f (closeInd p d ++ ']' :: rest)
      hwx (by simp only [fsizeItems] at hfu; omega) (noDigitHead_close_bracket p d rest)]
    have h1 : skipWs (closeInd p d ++ ']' :: rest) = ']' :: rest := by
      rw [skipWs_append_ws _ (closeInd_ws p d)]
      exact skipWs_cons_of_not _ (by decide)
    simp [h1]
  | cons y ys =>
    simp only [printArrItems, pItems]
    rw [List.append_assoc, List.append_assoc]
    rw [rtVal a p (d + 1) x f (itemSep p (d + 1) ++ (printArrItems a p (d + 1) (.cons y ys) ++
        (closeInd p d ++ ']' :: rest)))
      hwx (by simp only [fsizeItems] at hfu; omega)
      (noDigitHead_itemSep p (d + 1) _)]
    obtain ⟨w, hsep, hws⟩ := itemSep_shape p (d + 1)
    have h1 : skipWs (itemSep p (d + 1) ++ (printArrItems a p (d + 1) (.cons y ys) ++
        (closeInd p d ++ ']' :: rest))) =
        ',' :: (w ++ (printArrItems a p (d + 1) (.cons y ys) ++
          (closeInd p d ++ ']' :: rest))) := by
      rw [hsep, List.cons_append]
      exact skipWs_cons_of_not _ (by decide)
    have h2 : pItems f (w ++ (printArrItems a p (d + 1) (.cons y ys) ++
        (closeInd p d ++ ']' :: rest))) = .ok (.cons y ys, rest) := by
      rw [pItems_ws f _ hws]
      exact rtItems a p d y ys f rest
        (by simp only [wfList, Bool.and_eq_true] at hwxs; exact hwxs.1)
        (by simp only [wfList, Bool.and_eq_true] at hwxs; exact hwxs.2)
        (by simp only [fsizeItems] at hfu ⊢; omega) hrest
    simp [h1, h2]

termination_by 1 + sizeOf x + sizeOf xs
decreasing_by all_goals
  (simp_wf
   try subst_vars
   try simp only [Json.arr.sizeOf_spec, Json.obj.sizeOf_spec, JsonList.cons.sizeOf_spec,
     JsonFields.cons.sizeOf_spec, JsonList.nil.sizeOf_spec, JsonFields.nil.sizeOf_spec]
   try omega)

/-- The parser inverts the printer on a non-empty member list followed
by the closing layout and the closing brace. -/
theorem rtMembers (a p : Bool) (d : Nat) (k : String) (v : Json) (fs : JsonFields)
    (fuel : Nat) (rest : List Char) (hwv : wfVal v = true) (hwfs : wfFields fs = true)
    (hfu : fsizeMembers (.cons k v fs) ≤ fuel) :
    pMembers fuel (printObjItems a p (d + 1) (.cons k v fs) ++
      (closeInd p d ++ '\x7d' :: rest)) = .ok (.cons k v fs, rest) := by
  obtain ⟨f, rfl⟩ : ∃ f, fuel = f + 1 := ⟨fuel - 1, by
    simp only [fsizeMembers] at hfu; omega⟩
  cases fs with
  | nil =>
    have hshape : printObjItems a p (d + 1) (.cons k v .nil) ++
        (closeInd p d ++ '\x7d' :: rest) =
        '"' :: (k.data.flatMap (escapeChar a) ++ '"' ::
          (':' :: (' ' :: (printVal a p (d + 1) v ++ (closeInd p d ++ '\x7d' :: rest))))) := by
      simp [printObjItems, quoteString, escapeString, List.append_assoc]
    rw [hshape]
    simp only [pMembers]
    have h0 : skipWs ('"' :: (k.data.flatMap (escapeChar a) ++ '"' ::
        (':' :: (' ' :: (printVal a p (d + 1) v ++ (closeInd p d ++ '\x7d' :: rest)))))) =
        '"' :: (k.data.flatMap (escapeChar a) ++ '"' ::
        (':' :: (' ' :: (printVal a p (d + 1) v ++ (closeInd p d ++ '\x7d' :: rest))))) :=
      skipWs_cons_of_not _ (by decide)
    have h1 := pStrBody_escape a k.data
      ((k.data.flatMap (escapeChar a) ++ '"' ::
        (':' :: (' ' :: (printVal a p (d + 1) v ++
          (closeInd p d ++ '\x7d' :: rest))))).length + 1)
      (':' :: (' ' :: (printVal a p (d + 1) v ++ (closeInd p d ++ '\x7d' :: rest))))
      (by
        have hl := escapeString_length a k
        simp only [escapeString] at hl
        simp only [List.length_append, List.length_cons]
        omega)
    have h2 : skipWs (':' :: (' ' :: (printVal a p (d + 1) v ++
        (closeInd p d ++ '\x7d' :: rest)))) =
        ':' :: (' ' :: (printVal a p (d + 1) v ++ (closeInd p d ++ '\x7d' :: rest))) :=
      skipWs_cons_of_not _ (by decide)
    have h3 : pVal f (' ' :: (printVal a p (d + 1) v ++ (closeInd p d ++ '\x7d' :: rest))) =
        .ok (v, closeInd p d ++ '\x7d' :: rest) := by
      rw [show (' ' :: (printVal a p (d + 1) v ++ (closeInd p d ++ '\x7d' :: rest))) =
        [' '] ++ (printVal a p (d + 1) v ++ (closeInd p d ++ '\x7d' :: rest)) from rfl]
      rw [pVal_ws f _ (by intro c hc; simp at hc; rw [hc]; rfl)]
      exact rtVal a p (d + 1) v f _ hwv (by simp only [fsizeMembers] at hfu; omega)
        (noDigitHead_close_brace p d rest)
    have h4 : skipWs (closeInd p d ++ '\x7d' :: rest) = '\x7d' :: rest := by
      rw [skipWs_append_ws _ (closeInd_ws p d)]
      exact skipWs_cons_of_not _ (by decide)
    simp only [h0, h1, h2, h3, h4, string_mk_data]
    simp
  | cons k2 v2 fs2 =>
    have hshape : printObjItems a p (d + 1) (.cons k v (.cons k2 v2 fs2)) ++
        (closeInd p d ++ '\x7d' :: rest) =
        '"' :: (k.data.flatMap (escapeChar a) ++ '"' ::
          (':' :: (' ' :: (printVal a p (d + 1) v ++ (itemSep p (d + 1) ++
            (printObjItems a p (d + 1) (.cons k2 v2 fs2) ++
              (closeInd p d ++ '\x7d' :: rest))))))) := by
      simp [printObjItems, quoteString, escapeString, List.append_assoc]
    rw [hshape]
    simp only [pMembers]
    have h0 : skipWs ('"' :: (k.data.flatMap (escapeChar a) ++ '"' ::
        (':' :: (' ' :: (printVal a p (d + 1) v ++ (itemSep p (d + 1) ++
          (printObjItems a p (d + 1) (.cons k2 v2 fs2) ++
            (closeInd p d ++ '\x7d' :: rest)))))))) =
        '"' :: (k.data.flatMap (escapeChar a) ++ '"' ::
        (':' :: (' ' :: (printVal a p (d + 1) v ++ (itemSep p (d + 1) ++
          (printObjItems a p (d + 1) (.cons k2 v2 fs2) ++
            (closeInd p d ++ '\x7d' :: rest))))))) :=
      skipWs_cons_of_not _ (by decide)
    have h1 := pStrBody_escape a k.data
      ((k.data.flatMap (escapeChar a) ++ '"' ::
        (':' :: (' ' :: (printVal a p (d + 1) v ++ (itemSep p (d + 1) ++
          (printObjItems a p (d + 1) (.cons k2 v2 fs2) ++
            (closeInd p d ++ '\x7d' :: rest))))))).length + 1)
      (':' :: (' ' :: (printVal a p (d + 1) v ++ (itemSep p (d + 1) ++
        (printObjItems a p (d + 1) (.cons k2 v2 fs2) ++
          (closeInd p d ++ '\x7d' :: rest))))))
      (by
        have hl := escapeString_length a k
        simp only [escapeString] at hl
        simp only [List.length_append, List.length_cons]
        omega)
    have h2 : skipWs (':' :: (' ' :: (printVal a p (d + 1) v ++ (itemSep p (d + 1) ++
        (printObjItems a p (d + 1) (.cons k2 v2 fs2) ++
          (closeInd p d ++ '\x7d' :: rest)))))) =
        ':' :: (' ' :: (printVal a p (d + 1) v ++ (itemSep p (d + 1) ++
        (printObjItems a p (d + 1) (.cons k2 v2 fs2) ++
          (closeInd p d ++ '\x7d' :: rest))))) :=
      skipWs_cons_of_not _ (by decide)
    have h3 : pVal f (' ' :: (printVal a p (d + 1) v ++ (itemSep p (d + 1) ++
        (printObjItems a p (d + 1) (.cons k2 v2 fs2) ++ (closeInd p d ++ '\x7d' :: rest))))) =
        .ok (v, itemSep p (d + 1) ++ (printObjItems a p (d + 1) (.cons k2 v2 fs2) ++
          (closeInd p d ++ '\x7d' :: rest))) := by
      rw [show (' ' :: (printVal a p (d + 1) v ++ (itemSep p (d + 1) ++
        (printObjItems a p (d + 1) (.cons k2 v2 fs2) ++ (closeInd p d ++ '\x7d' :: rest))))) =
        [' '] ++ (printVal a p (d + 1) v ++ (itemSep p (d + 1) ++
        (printObjItems a p (d + 1) (.cons k2 v2 fs2) ++ (closeInd p d ++ '\x7d' :: rest))))
        from rfl]
      rw [pVal_ws f _ (by intro c hc; simp at hc; rw [hc]; rfl)]
      exact rtVal a p (d + 1) v f _ hwv (by simp only [fsizeMembers] at hfu; omega)
        (noDigitHead_itemSep p (d + 1) _)
    obtain ⟨w, hsep, hws⟩ := itemSep_shape p (d + 1)
    have h4 : skipWs (itemSep p (d + 1) ++ (printObjItems a p (d + 1) (.cons k2 v2 fs2) ++
        (closeInd p d ++ '\x7d' :: rest))) =
        ',' :: (w ++ (printObjItems a p (d + 1) (.cons k2 v2 fs2) ++
          (closeInd p d ++ '\x7d' :: rest))) := by
      rw [hsep, List.cons_append]
      exact skipWs_cons_of_not _ (by decide)
    have h5 : pMembers f (w ++ (printObjItems a p (d + 1) (.cons k2 v2 fs2) ++
        (closeInd p d ++ '\x7d' :: rest))) = .ok (.cons k2 v2 fs2, rest) := by
      rw [pMembers_ws f _ hws]
      exact rtMembers a p d k2 v2 fs2 f rest
        (by simp only [wfFields, Bool.and_eq_true] at hwfs; exact hwfs.1.2)
        (by simp only [wfFields, Bool.and_eq_true] at hwfs; exact hwfs.2)
        (by simp only [fsizeMembers] at hfu ⊢; omega)
    simp only [h0, h1, h2, h3, h4, h5, string_mk_data]
    simp
termination_by 1 + sizeOf v + sizeOf fs
decreasing_by all_goals
  (simp_wf
   try subst_vars
   try simp only [Json.arr.sizeOf_spec, Json.obj.sizeOf_spec, JsonList.cons.sizeOf_spec,
     JsonFields.cons.sizeOf_spec, JsonList.nil.sizeOf_spec, JsonFields.nil.sizeOf_spec]
   try omega)
end

theorem intChars_length_pos (n : Int) : 1 ≤ (intChars n).length := by
  rw [intChars]
  split_ifs with h
  · simp
  · obtain ⟨c, t, hct, _⟩ := natChars_head n.toNat
    simp [hct]

theorem itemSep_length_pos (p : Bool) (d : Nat) : 1 ≤ (itemSep p d).length := by
  obtain ⟨w, hsep, _⟩ := itemSep_shape p d
  simp [hsep]

mutual
/-- The fuel bound of a value is at most its printed length (plus one
for item lists). -/
theorem fsizeVal_le_plen (a p : Bool) (d : Nat) (x : Json) :
    fsizeVal x ≤ (printVal a p d x).length := by
  cases x with
  | null => simp [fsizeVal, printVal]
  | bool b => cases b <;> simp [fsizeVal, printVal]
  | num n =>
    have := intChars_length_pos n
    simp only [fsizeVal, printVal]
    omega
  | str s => simp [fsizeVal, printVal, quoteString]
  | arr xs =>
    cases xs with
    | nil => simp [fsizeVal, fsizeItems, printVal]
    | cons x xs =>
      have h := fsizeItems_le_plen a p (d + 1) x xs
      simp only [fsizeVal, printVal, List.length_cons, List.length_append]
      omega
  | obj fs =>
    cases fs with
    | nil => simp [fsizeVal, fsizeMembers, printVal]
    | cons k v fs =>
      have h := fsizeMembers_le_plen a p (d + 1) k v fs
      simp only [fsizeVal, printVal, List.length_cons, List.length_append]
      omega

termination_by sizeOf x
decreasing_by all_goals
  (simp_wf
   try subst_vars
   try simp only [Json.arr.sizeOf_spec, Json.obj.sizeOf_spec, JsonList.cons.sizeOf_spec,
     JsonFields.cons.sizeOf_spec, JsonList.nil.sizeOf_spec, JsonFields.nil.sizeOf_spec]
   try omega)

/-- Fuel bound for a non-empty printed item list. -/
theorem fsizeItems_le_plen (a p : Bool) (d : Nat) (x : Json) (xs : JsonList) :
    fsizeItems (.cons x xs) ≤ (printArrItems a p d (.cons x xs)).length + 1 := by
  cases xs with
  | nil =>
    have h := fsizeVal_le_plen a p d x
    simp only [fsizeItems, printArrItems]
    omega
  | cons y ys =>
    have h1 := fsizeVal_le_plen a p d x
    have h2 := fsizeItems_le_plen a p d y ys
    have h3 := itemSep_length_pos p d
    simp only [fsizeItems, printArrItems, List.length_append]
    simp only [fsizeItems] at h2
    omega

termination_by 1 + sizeOf x + sizeOf xs
decreasing_by all_goals
  (simp_wf
   try subst_vars
   try simp only [Json.arr.sizeOf_spec, Json.obj.sizeOf_spec, JsonList.cons.sizeOf_spec,
     JsonFields.cons.sizeOf_spec, JsonList.nil.sizeOf_spec, JsonFields.nil.sizeOf_spec]
   try omega)

/-- Fuel bound for a non-empty printed member list. -/
theorem fsizeMembers_le_plen (a p : Bool) (d : Nat) (k : String) (v : Json)
    (fs : JsonFields) :
    fsizeMembers (.cons k v fs) ≤ (printObjItems a p d (.cons k v fs)).length + 1 := by
  cases fs with
  | nil =>
    have h := fsizeVal_le_plen a p d v
    simp only [fsizeMembers, printObjItems, List.length_append, List.length_cons]
    omega
  | cons k2 v2 fs2 =>
    have h1 := fsizeVal_le_plen a p d v
    have h2 := fsizeMembers_le_plen a p d k2 v2 fs2
    have h3 := itemSep_length_pos p d
    simp only [fsizeMembers, printObjItems, List.length_append, List.length_cons]
    simp only [fsizeMembers] at h2
    omega
termination_by 1 + sizeOf v + sizeOf fs
decreasing_by all_goals
  (simp_wf
   try subst_vars
   try simp only [Json.arr.sizeOf_spec, Json.obj.sizeOf_spec, JsonList.cons.sizeOf_spec,
     JsonFields.cons.sizeOf_spec, JsonList.nil.sizeOf_spec, JsonFields.nil.sizeOf_spec]
   try omega)
end

/-- `json.loads` inverts `json.dumps` for every escaping and layout
mode, on any value whose objects have duplicate-free keys. -/
theorem loads_dumps (a p : Bool) (x : Json) (hwf : wfVal x = true) :
    json_loads (dumps a p x) = .ok x := by
  have hsz := fsizeVal_le_plen a p 0 x
  have h := rtVal a p 0 x ((printVal a p 0 x).length + 1) [] hwf (by omega) rfl
  rw [List.append_nil] at h
  unfold json_loads dumps
  rw [show (String.mk (printVal a p 0 x)).data = printVal a p 0 x from rfl, h]
  simp [skipWs]

/-- Two appends are unequal when the fixed heads differ at position
`i`. -/
theorem string_append_ne_of_head {p q : String} (i : Nat)
    (hip : i < p.data.length) (hiq : i < q.data.length)
    (h : p.data[i]? ≠ q.data[i]?) :
    ∀ s t : String, p ++ s ≠ q ++ t := by
  intro s t hEq
  have h2 := congrArg (fun u : String => u.data[i]?) hEq
  simp only [String.data_append] at h2
  rw [List.getElem?_append_left hip, List.getElem?_append_left hiq] at h2
  exact h h2

theorem storeKeys_update (st : List (Nat × Nat × List Turn)) (c : Nat)
    (f : Nat × List Turn → Nat × List Turn) :
    storeKeys (storeUpdate st c f) = storeKeys st := by
  induction st with
  | nil => rfl
  | cons e tl ih =>
    obtain ⟨k, v⟩ := e
    by_cases hk : k = c
    · simp [storeUpdate, hk, storeKeys]
    · simp [storeUpdate, hk, storeKeys]
      exact ih

theorem storeKeys_remove (st : List (Nat × Nat × List Turn)) (c : Nat) :
    storeKeys (storeRemove st c) = (storeKeys st).erase c := by
  induction st with
  | nil => rfl
  | cons e tl ih =>
    obtain ⟨k, v⟩ := e
    by_cases hk : k = c
    · simp [storeRemove, hk, storeKeys, List.erase_cons_head]
    · rw [show storeKeys ((k, v) :: tl) = k :: storeKeys tl from rfl,
        List.erase_cons_tail, ← ih]
      · simp [storeRemove, hk, storeKeys]
      · simp [hk]

/-- The store keys track the open connections along every server run. -/
theorem runSrv_inv (agentF : Nat → Nat → List Turn → String → Except String String)
    (events : List SrvEvent) (s : SrvState)
    (h : storeKeys s.connections = s.openConns) :
    storeKeys (runSrv agentF s events).connections = (runSrv agentF s events).openConns := by
  induction events generalizing s with
  | nil => exact h
  | cons e es ih =>
    refine ih _ ?_
    cases e with
    | connect c =>
      show storeKeys ((c, 0, []) :: s.connections) = c :: s.openConns
      rw [show storeKeys ((c, 0, []) :: s.connections) = c :: storeKeys s.connections from rfl, h]
    | message c m =>
      show storeKeys (storeUpdate s.connections c _) = s.openConns
      rw [storeKeys_update, h]
    | disconnect c =>
      show storeKeys (storeRemove s.connections c) = s.openConns.erase c
      rw [storeKeys_remove, h]

/-- No branch of the message loop ever emits a `system` envelope. -/
theorem processMessage_no_system
    (agentF : Nat → List Turn → String → Except String String) (k : Nat)
    (history : List Turn) (msg : String) :
    ∀ env ∈ (processMessage agentF k history msg).2.2, isSystemEnv env = false := by
  intro env henv
  cases hjl : json_loads msg with
  | error e =>
    simp [processMessage, hjl] at henv
    rw [henv]
    rfl
  | ok data =>
    cases data with
    | obj fields =>
      cases htx : (lookupField fields "text").getD (.str "") with
      | str s =>
        by_cases hstrip : pyStrip s = ""
        · simp [processMessage, hjl, htx, hstrip] at henv
        · cases hag : agentF k history (pyStrip s ++ "\n /no_think") with
          | ok reply =>
            simp [processMessage, hjl, htx, hstrip, hag] at henv
            rw [henv]
            rfl
          | error e =>
            simp [processMessage, hjl, htx, hstrip, hag] at henv
            rw [henv]
            rfl
      | null => simp [processMessage, hjl, htx] at henv; rw [henv]; rfl
      | bool b => simp [processMessage, hjl, htx] at henv; rw [henv]; rfl
      | num n => simp [processMessage, hjl, htx] at henv; rw [henv]; rfl
      | arr xs => simp [processMessage, hjl, htx] at henv; rw [henv]; rfl
      | obj fs2 => simp [processMessage, hjl, htx] at henv; rw [henv]; rfl
    | null => simp [processMessage, hjl] at henv; rw [henv]; rfl
    | bool b => simp [processMessage, hjl] at henv; rw [henv]; rfl
    | num n => simp [processMessage, hjl] at henv; rw [henv]; rfl
    | str s => simp [processMessage, hjl] at henv; rw [henv]; rfl
    | arr xs => simp [processMessage, hjl] at henv; rw [henv]; rfl

theorem runMessages_no_system
    (agentF : Nat → List Turn → String → Except String String) (k : Nat)
    (history : List Turn) (msgs : List String) :
    (runMessages agentF k history msgs).2.countP (fun env => isSystemEnv env) = 0 := by
  induction msgs generalizing k history with
  | nil => rfl
  | cons m rest ih =>
    rw [runMessages]
    simp only [List.countP_append]
    rw [ih]
    have h := processMessage_no_system agentF k history m
    have : (processMessage agentF k history m).2.2.countP (fun env => isSystemEnv env) = 0 := by
      rw [List.countP_eq_zero]
      intro env henv
      simp [h env henv]
    omega

/-- C1: For every call to `generate_sample_users` with non-empty
`first_names`, `last_names`, `domains` and `0 ≤ min_age ≤ max_age`
(with `random.randint` obeying its contract), the result is
`{users, count}` with `count = len(first_names)`, and record `i` has
`firstName = first_names[i]`, `lastName = last_names[i % len]`,
`email = first.lower() ++ "." ++ last.lower() ++ "@" ++ domain`
(cyclic), `id = i + 1`, `username = first.lower()` followed by an
integer in `[100, 999]`, and `age ∈ [min_age, max_age]`. -/
theorem C1_generate_sample_users_ok
    (randint : Nat → Int → Int → Int) (isoDaysAgo : Int → String)
    (first_names last_names domains : List String) (min_age max_age : Int)
    (hfn : first_names ≠ []) (hln : last_names ≠ []) (hdm : domains ≠ [])
    (h0 : 0 ≤ min_age) (h1 : min_age ≤ max_age)
    (hrand : ∀ k lo hi, lo ≤ hi → lo ≤ randint k lo hi ∧ randint k lo hi ≤ hi) :
    ∃ users,
      generate_sample_users randint isoDaysAgo first_names last_names domains
        min_age max_age = .ok users users.length ∧
      users.length = first_names.length ∧
      ∀ i, ∀ hi : i < users.length,
        (users.get ⟨i, hi⟩).firstName = first_names.getD i "" ∧
        (users.get ⟨i, hi⟩).lastName = last_names.getD (i % last_names.length) "" ∧
        (users.get ⟨i, hi⟩).email =
          (first_names.getD i "").toLower ++ "." ++
          (last_names.getD (i % last_names.length) "").toLower ++ "@" ++
          domains.getD (i % domains.length) "" ∧
        (users.get ⟨i, hi⟩).id = i + 1 ∧
        (∃ m : Int, 100 ≤ m ∧ m ≤ 999 ∧
          (users.get ⟨i, hi⟩).username =
            (first_names.getD i "").toLower ++ String.mk (intChars m)) ∧
        (min_age ≤ (users.get ⟨i, hi⟩).age ∧ (users.get ⟨i, hi⟩).age ≤ max_age) := by
  unfold generate_sample_users
  rw [if_neg (by simpa [List.isEmpty_iff] using hfn),
    if_neg (by simpa [List.isEmpty_iff] using hln),
    if_neg (by simpa [List.isEmpty_iff] using hdm),
    if_neg (by omega : ¬min_age > max_age),
    if_neg (by omega : ¬(min_age < 0 ∨ max_age < 0))]
  refine ⟨_, rfl, by simp, ?_⟩
  intro i hi
  refine ⟨by simp, by simp, by simp, by simp,
    ⟨randint (3 * i) 100 999, (hrand (3 * i) 100 999 (by norm_num)).1,
      (hrand (3 * i) 100 999 (by norm_num)).2, by simp⟩,
    by simpa using (hrand (3 * i + 1) min_age max_age h1).1,
    by simpa using (hrand (3 * i + 1) min_age max_age h1).2⟩

/-- C4: At all times the number of open connections equals the number
of entries in the session store `CONNECTIONS`: an entry is created when
a connection opens (`CONNECTIONS[websocket] = history`), every entry is
removed exactly once on that connection's termination path (the
`finally` block's `pop`), and message processing — including processing
cut short by termination, which the `disconnect` event models at any
point — never changes the key set.  Along every event trace the store's
keys are exactly the open connections, so the counts agree. -/
theorem C4_connections_invariant
    (agentF : Nat → Nat → List Turn → String → Except String String)
    (events : List SrvEvent) :
    storeKeys (runSrv agentF srvInit events).connections =
      (runSrv agentF srvInit events).openConns ∧
    (runSrv agentF srvInit events).connections.length =
      (runSrv agentF srvInit events).openConns.length := by
  have h := runSrv_inv agentF events srvInit rfl
  refine ⟨h, ?_⟩
  rw [← h]
  simp [storeKeys]

/-- C5: For every JSON-representable structure (objects with
duplicate-free keys; numerals integral in this embedding) and every
path, if `write_json` succeeds then `read_json` on the same path
returns a representation that parses to a value deeply equal to the
original data. -/
theorem C5_write_read_roundtrip (fs : FS) (path : String) (data : Json)
    (hwf : wfVal data = true)
    (hw : fs.writeErr path = none) (hr : fs.readErr path = none) :
    json_loads (read_json (write_json fs path data).1 path) = .ok data := by
  have hfiles : (write_json fs path data).1.files path = some (dumps false true data) := by
    unfold write_json
    rw [hw]
    simp
  have hre : (write_json fs path data).1.readErr path = none := by
    unfold write_json
    rw [hw]
    exact hr
  unfold read_json
  rw [hfiles, hre]
  simp only [loads_dumps false true data hwf]
  exact loads_dumps true true data hwf

/-- Witness for C5 at a concrete file system, path and value. -/
theorem C5_write_read_roundtrip_witness :
    wfVal (.obj (.cons "a" (.arr (.cons (.num 1) (.cons .null .nil)))
      (.cons "b" (.str "hi🚀") .nil))) = true ∧
    emptyFS.writeErr "out.json" = none ∧ emptyFS.readErr "out.json" = none ∧
    json_loads (read_json (write_json emptyFS "out.json"
      (.obj (.cons "a" (.arr (.cons (.num 1) (.cons .null .nil)))
        (.cons "b" (.str "hi🚀") .nil)))).1 "out.json") =
      .ok (.obj (.cons "a" (.arr (.cons (.num 1) (.cons .null .nil)))
        (.cons "b" (.str "hi🚀") .nil))) :=
  ⟨rfl, rfl, rfl, C5_write_read_roundtrip emptyFS "out.json" _ rfl rfl rfl⟩

/-- C6 counterexample: for `data = {"a": 1}` the success message reports
8 characters — `len(json.dumps(data))` with default settings — while the
payload actually written (`indent=2`) is 12 characters long, so the
message does not report the length of the written payload. -/
theorem C6_counterexample :
    (write_json emptyFS "f" (.obj (.cons "a" (.num 1) .nil))).2 =
      "Successfully wrote JSON data to 'f' (8 characters)." ∧
    (∃ w, (write_json emptyFS "f" (.obj (.cons "a" (.num 1) .nil))).1.files "f" = some w ∧
      w.length = 12) ∧
    (8 : Nat) ≠ 12 :=
  ⟨rfl, ⟨dumps false true (.obj (.cons "a" (.num 1) .nil)), rfl, rfl⟩, by decide⟩

/-- C6 (amended): `write_json` returns a success message quoting the
character length of the *compact default* serialization
`len(json.dumps(data))` — which can differ from the pretty-printed
payload written to the file — and on an I/O failure returns a
descriptive error string instead of raising. -/
theorem C6_write_json_message (fs : FS) (path : String) (data : Json) :
    (fs.writeErr path = none →
      (write_json fs path data).2 =
        "Successfully wrote JSON data to '" ++ path ++ "' (" ++
          String.mk (natChars (dumps true false data).length) ++ " characters)." ∧
      (write_json fs path data).1.files path = some (dumps false true data)) ∧
    (∀ e, fs.writeErr path = some e →
      (write_json fs path data).2 = "Error writing JSON: " ++ e ∧
      (write_json fs path data).1 = fs) := by
  constructor
  · intro h
    unfold write_json
    rw [h]
    exact ⟨rfl, by simp⟩
  · intro e h
    unfold write_json
    rw [h]
    exact ⟨rfl, rfl⟩

/-- Witness for C6's amended statement, on both the success and the
failure path. -/
theorem C6_write_json_message_witness :
    ((write_json emptyFS "f" (.num 7)).2 =
      "Successfully wrote JSON data to '" ++ "f" ++ "' (" ++
        String.mk (natChars (dumps true false (.num 7)).length) ++ " characters)." ∧
      (write_json emptyFS "f" (.num 7)).1.files "f" = some (dumps false true (.num 7))) ∧
    ((write_json { emptyFS with writeErr := fun _ => some "disk full" } "f" (.num 7)).2 =
      "Error writing JSON: " ++ "disk full" ∧
      (write_json { emptyFS with writeErr := fun _ => some "disk full" } "f" (.num 7)).1 =
        { emptyFS with writeErr := fun _ => some "disk full" }) :=
  ⟨(C6_write_json_message emptyFS "f" (.num 7)).1 rfl,
    (C6_write_json_message { emptyFS with writeErr := fun _ => some "disk full" } "f"
      (.num 7)).2 "disk full" rfl⟩

/-- An append is unequal to a constant when the fixed head differs at
position `i`. -/
theorem append_ne_const {p : String} (X c : String) (i : Nat)
    (hip : i < p.data.length) (h : p.data[i]? ≠ c.data[i]?) : p ++ X ≠ c := by
  intro he
  have h2 := congrArg (fun u : String => u.data[i]?) he
  simp only [String.data_append] at h2
  rw [List.getElem?_append_left hip] at h2
  exact h h2

/-- C7: Every violated precondition of `generate_sample_users` yields
an error object with its own message — in source order: empty
`first_names`, empty `last_names`, empty `domains`, `min_age > max_age`,
negative age — and the five messages are pairwise distinct.  The
embedding is a total function, so no input raises. -/
theorem C7_generate_sample_users_validation
    (randint : Nat → Int → Int → Int) (isoDaysAgo : Int → String)
    (first_names last_names domains : List String) (min_age max_age : Int) :
    (first_names = [] →
      generate_sample_users randint isoDaysAgo first_names last_names domains min_age max_age =
        .error "first_names list cannot be empty") ∧
    (first_names ≠ [] → last_names = [] →
      generate_sample_users randint isoDaysAgo first_names last_names domains min_age max_age =
        .error "last_names list cannot be empty") ∧
    (first_names ≠ [] → last_names ≠ [] → domains = [] →
      generate_sample_users randint isoDaysAgo first_names last_names domains min_age max_age =
        .error "domains list cannot be empty") ∧
    (first_names ≠ [] → last_names ≠ [] → domains ≠ [] → min_age > max_age →
      generate_sample_users randint isoDaysAgo first_names last_names domains min_age max_age =
        .error ("min_age (" ++ String.mk (intChars min_age) ++
          ") cannot be greater than max_age (" ++ String.mk (intChars max_age) ++ ")")) ∧
    (first_names ≠ [] → last_names ≠ [] → domains ≠ [] → ¬min_age > max_age →
      (min_age < 0 ∨ max_age < 0) →
      generate_sample_users randint isoDaysAgo first_names last_names domains min_age max_age =
        .error "ages must be non-negative") ∧
    (("first_names list cannot be empty" : String) ≠ "last_names list cannot be empty" ∧
     ("first_names list cannot be empty" : String) ≠ "domains list cannot be empty" ∧
     ("first_names list cannot be empty" : String) ≠ "ages must be non-negative" ∧
     ("last_names list cannot be empty" : String) ≠ "domains list cannot be empty" ∧
     ("last_names list cannot be empty" : String) ≠ "ages must be non-negative" ∧
     ("domains list cannot be empty" : String) ≠ "ages must be non-negative" ∧
     ("min_age (" ++ String.mk (intChars min_age) ++
        ") cannot be greater than max_age (" ++ String.mk (intChars max_age) ++ ")") ≠
       "first_names list cannot be empty" ∧
     ("min_age (" ++ String.mk (intChars min_age) ++
        ") cannot be greater than max_age (" ++ String.mk (intChars max_age) ++ ")") ≠
       "last_names list cannot be empty" ∧
     ("min_age (" ++ String.mk (intChars min_age) ++
        ") cannot be greater than max_age (" ++ String.mk (intChars max_age) ++ ")") ≠
       "domains list cannot be empty" ∧
     ("min_age (" ++ String.mk (intChars min_age) ++
        ") cannot be greater than max_age (" ++ String.mk (intChars max_age) ++ ")") ≠
       "ages must be non-negative") := by
  have hm4 : ∀ c : String, ("min_age (" : String).data[0]? ≠ c.data[0]? →
      ("min_age (" ++ String.mk (intChars min_age) ++
        ") cannot be greater than max_age (" ++ String.mk (intChars max_age) ++ ")") ≠ c := by
    intro c hc
    have hassoc : ("min_age (" ++ String.mk (intChars min_age) ++
        ") cannot be greater than max_age (" ++ String.mk (intChars max_age) ++ ")") =
        "min_age (" ++ (String.mk (intChars min_age) ++
          (") cannot be greater than max_age (" ++ (String.mk (intChars max_age) ++ ")"))) := by
      simp [String.append_assoc]
    rw [hassoc]
    exact append_ne_const _ c 0 (by decide) hc
  refine ⟨?_, ?_, ?_, ?_, ?_, by decide, by decide, by decide, by decide, by decide, by decide,
    hm4 _ (by decide), hm4 _ (by decide), hm4 _ (by decide), hm4 _ (by decide)⟩
  · intro h
    unfold generate_sample_users
    rw [if_pos (by simp [h])]
  · intro h1 h2
    unfold generate_sample_users
    rw [if_neg (by simpa [List.isEmpty_iff] using h1), if_pos (by simp [h2])]
  · intro h1 h2 h3
    unfold generate_sample_users
    rw [if_neg (by simpa [List.isEmpty_iff] using h1),
      if_neg (by simpa [List.isEmpty_iff] using h2), if_pos (by simp [h3])]
  · intro h1 h2 h3 h4
    unfold generate_sample_users
    rw [if_neg (by simpa [List.isEmpty_iff] using h1),
      if_neg (by simpa [List.isEmpty_iff] using h2),
      if_neg (by simpa [List.isEmpty_iff] using h3), if_pos h4]
  · intro h1 h2 h3 h4 h5
    unfold generate_sample_users
    rw [if_neg (by simpa [List.isEmpty_iff] using h1),
      if_neg (by simpa [List.isEmpty_iff] using h2),
      if_neg (by simpa [List.isEmpty_iff] using h3), if_neg h4, if_pos h5]

/-- Witness for C7: two violated preconditions at concrete inputs. -/
theorem C7_generate_sample_users_validation_witness :
    generate_sample_users (fun _ lo _ => lo) (fun _ => "t") [] ["b"] ["c"] 0 1 =
      .error "first_names list cannot be empty" ∧
    generate_sample_users (fun _ lo _ => lo) (fun _ => "t") ["a"] ["b"] ["c"] 5 2 =
      .error ("min_age (" ++ String.mk (intChars 5) ++
        ") cannot be greater than max_age (" ++ String.mk (intChars 2) ++ ")") :=
  ⟨(C7_generate_sample_users_validation (fun _ lo _ => lo) (fun _ => "t")
      [] ["b"] ["c"] 0 1).1 rfl,
    (C7_generate_sample_users_validation (fun _ lo _ => lo) (fun _ => "t")
      ["a"] ["b"] ["c"] 5 2).2.2.2.1 (by decide) (by decide) (by decide) (by decide)⟩

/-- C8: `read_json` returns a "not found" error for a missing file, an
"invalid JSON" error for unparsable content, and a generic error for
any other I/O failure; the three texts are pairwise distinguishable
(distinct for every path and description), and the embedding is a total
function, so no input raises. -/
theorem C8_read_json_errors (fs : FS) (path : String) :
    (fs.files path = none →
      read_json fs path = "Error: File '" ++ path ++ "' not found.") ∧
    (∀ content e, fs.files path = some content → fs.readErr path = none →
      json_loads content = .error e →
      read_json fs path = "Error: Invalid JSON in file - " ++ e) ∧
    (∀ content e, fs.files path = some content → fs.readErr path = some e →
      read_json fs path = "Error reading JSON: " ++ e) ∧
    (∀ s1 s2 s3 : String,
      ("Error: File '" ++ s1 ++ "' not found.") ≠ ("Error: Invalid JSON in file - " ++ s2) ∧
      ("Error: File '" ++ s1 ++ "' not found.") ≠ ("Error reading JSON: " ++ s3) ∧
      ("Error: Invalid JSON in file - " ++ s2) ≠ ("Error reading JSON: " ++ s3)) := by
  refine ⟨?_, ?_, ?_, ?_⟩
  · intro h
    unfold read_json
    rw [h]
  · intro content e h1 h2 h3
    unfold read_json
    rw [h1]
    simp only
    rw [h2]
    simp only
    rw [h3]
  · intro content e h1 h2
    unfold read_json
    rw [h1]
    simp only
    rw [h2]
  · intro s1 s2 s3
    refine ⟨?_, ?_, ?_⟩
    · have h := string_append_ne_of_head (p := "Error: File '")
        (q := "Error: Invalid JSON in file - ") 7 (by decide) (by decide) (by decide)
        (s1 ++ "' not found.") s2
      simpa [String.append_assoc] using h
    · have h := string_append_ne_of_head (p := "Error: File '")
        (q := "Error reading JSON: ") 6 (by decide) (by decide) (by decide)
        (s1 ++ "' not found.") s3
      simpa [String.append_assoc] using h
    · exact string_append_ne_of_head (i := 7) (by decide) (by decide) (by decide) s2 s3

/-- Witness for C8: a missing file and an invalid-JSON file at concrete
inputs. -/
theorem C8_read_json_errors_witness :
    read_json { emptyFS with files := fun p => if p = "a.json" then some "\x7bbad" else none }
      "missing.json" = "Error: File '" ++ "missing.json" ++ "' not found." ∧
    read_json { emptyFS with files := fun p => if p = "a.json" then some "\x7bbad" else none }
      "a.json" = "Error: Invalid JSON in file - " ++ "Expecting property name" :=
  ⟨(C8_read_json_errors _ "missing.json").1 rfl,
    (C8_read_json_errors _ "a.json").2.1 "\x7bbad" "Expecting property name" rfl rfl rfl⟩

/-- The message-loop step on a parsed object whose `text` value is a
string: the common unfolding used by the handler claims. -/
theorem processMessage_obj_str
    (agentF : Nat → List Turn → String → Except String String) (k : Nat)
    (history : List Turn) (msg : String) (fields : JsonFields) (s : String)
    (hp : json_loads msg = .ok (.obj fields))
    (ht : (lookupField fields "text").getD (.str "") = .str s) :
    processMessage agentF k history msg =
      (if pyStrip s = "" then (k, history, [])
       else
         match agentF k history (pyStrip s ++ "\n /no_think") with
         | .ok reply => (k + 1, history ++ [.user (pyStrip s), .assistant reply],
             [.agent reply])
         | .error e => (k + 1, history, [.error ("Server error: " ++ e)])) := by
  unfold processMessage
  rw [hp]
  simp only
  rw [ht]

/-- C2 counterexample: the frame `"oops"` is not valid JSON, yet the
handler sends one `error` envelope for it instead of zero — the inner
`except Exception` catches the `json.JSONDecodeError` and reports it.
The history is still left unchanged. -/
theorem C2_counterexample :
    json_loads "oops" = .error "Expecting value" ∧
    (processMessage (fun _ _ _ => .ok "ok") 0 [] "oops").2.2 =
      [.error ("Server error: " ++ "Expecting value")] ∧
    (processMessage (fun _ _ _ => .ok "ok") 0 [] "oops").2.1 = ([] : List Turn) ∧
    (processMessage (fun _ _ _ => .ok "ok") 0 [] "oops").2.2.length ≠ 0 :=
  ⟨rfl, rfl, rfl, by decide⟩

/-- C2 (amended): an inbound frame that parses to a JSON object whose
`"text"` value is a string that is empty after trimming (or absent,
defaulting to empty) is silently ignored — zero outbound envelopes, no
history mutation, no agent call; an inbound frame that is *not* valid
JSON instead produces exactly one `error` envelope, still with no
history mutation. -/
theorem C2_malformed_frames
    (agentF : Nat → List Turn → String → Except String String) (k : Nat)
    (history : List Turn) (msg : String) :
    (∀ fields s, json_loads msg = .ok (.obj fields) →
      (lookupField fields "text").getD (.str "") = .str s → pyStrip s = "" →
      processMessage agentF k history msg = (k, history, [])) ∧
    (∀ e, json_loads msg = .error e →
      processMessage agentF k history msg =
        (k, history, [.error ("Server error: " ++ e)])) := by
  constructor
  · intro fields s hp ht hs
    rw [processMessage_obj_str agentF k history msg fields s hp ht, if_pos hs]
  · intro e hp
    unfold processMessage
    rw [hp]

/-- Witness for C2's amended statement: a frame with blank text is
dropped silently; a non-JSON frame draws one error envelope. -/
theorem C2_malformed_frames_witness :
    json_loads "\x7b\"text\": \"  \"\x7d" =
      .ok (.obj (.cons "text" (.str "  ") .nil)) ∧
    processMessage (fun _ _ _ => .ok "ok") 0 [] "\x7b\"text\": \"  \"\x7d" = (0, [], []) ∧
    processMessage (fun _ _ _ => .ok "ok") 0 [] "oops" =
      (0, [], [.error ("Server error: " ++ "Expecting value")]) :=
  ⟨rfl,
    (C2_malformed_frames (fun _ _ _ => .ok "ok") 0 [] "\x7b\"text\": \"  \"\x7d").1
      (.cons "text" (.str "  ") .nil) "  " rfl rfl rfl,
    (C2_malformed_frames (fun _ _ _ => .ok "ok") 0 [] "oops").2 "Expecting value" rfl⟩

/-- C3: When a valid inbound envelope's agent invocation raises, the
handler sends exactly one `error` envelope
`{"type": "error", "text": "Server error: <description>"}`, appends no
turn to the history, and the loop continues: the remaining messages are
processed from the same history, so a subsequent valid message is
handled normally. -/
theorem C3_agent_failure
    (agentF : Nat → List Turn → String → Except String String) (k : Nat)
    (history : List Turn) (msg : String) (fields : JsonFields) (s e : String)
    (rest : List String)
    (hp : json_loads msg = .ok (.obj fields))
    (ht : (lookupField fields "text").getD (.str "") = .str s)
    (hs : pyStrip s ≠ "")
    (ha : agentF k history (pyStrip s ++ "\n /no_think") = .error e) :
    processMessage agentF k history msg =
      (k + 1, history, [.error ("Server error: " ++ e)]) ∧
    runMessages agentF k history (msg :: rest) =
      ((runMessages agentF (k + 1) history rest).1,
        .error ("Server error: " ++ e) :: (runMessages agentF (k + 1) history rest).2) := by
  have h1 : processMessage agentF k history msg =
      (k + 1, history, [.error ("Server error: " ++ e)]) := by
    rw [processMessage_obj_str agentF k history msg fields s hp ht, if_neg hs, ha]
  refine ⟨h1, ?_⟩
  rw [runMessages]
  simp [h1]

/-- Witness for C3: a concrete conversation where the first agent call
raises and the second succeeds; the second message is processed
normally from the unchanged history. -/
theorem C3_agent_failure_witness :
    processMessage
      (fun k _ _ => if k = 0 then .error "boom" else .ok "fine") 0 []
      "\x7b\"text\": \"hi\"\x7d" = (1, [], [.error ("Server error: " ++ "boom")]) ∧
    runMessages (fun k _ _ => if k = 0 then .error "boom" else .ok "fine") 0 []
      ["\x7b\"text\": \"hi\"\x7d", "\x7b\"text\": \"again\"\x7d"] =
      ([.user "again", .assistant "fine"],
        [.error ("Server error: " ++ "boom"), .agent "fine"]) := by
  have h := C3_agent_failure
    (fun k _ _ => if k = 0 then .error "boom" else .ok "fine") 0 []
    "\x7b\"text\": \"hi\"\x7d" (.cons "text" (.str "hi") .nil) "hi" "boom"
    ["\x7b\"text\": \"again\"\x7d"] rfl rfl (by decide) rfl
  exact ⟨h.1, by rw [h.2]; rfl⟩

/-- C10: For a valid inbound message, the text handed to `agent.invoke`
is the trimmed user text with `"\n /no_think"` appended, while on
success the user turn recorded in the history carries only the trimmed
text — and the two strings are never equal, so the stored history
differs from what the agent was shown for that turn. -/
theorem C10_agent_input_vs_history
    (agentF : Nat → List Turn → String → Except String String) (k : Nat)
    (history : List Turn) (msg : String) (fields : JsonFields) (s r : String)
    (hp : json_loads msg = .ok (.obj fields))
    (ht : (lookupField fields "text").getD (.str "") = .str s)
    (hs : pyStrip s ≠ "")
    (ha : agentF k history (pyStrip s ++ "\n /no_think") = .ok r) :
    processMessage agentF k history msg =
      (k + 1, history ++ [.user (pyStrip s), .assistant r], [.agent r]) ∧
    pyStrip s ++ "\n /no_think" ≠ pyStrip s := by
  constructor
  · rw [processMessage_obj_str agentF k history msg fields s hp ht, if_neg hs, ha]
  · intro hcontra
    have hlen := congrArg String.length hcontra
    rw [String.length_append] at hlen
    rw [show ("\n /no_think" : String).length = 11 from rfl] at hlen
    omega

/-- Witness for C10 at a concrete message and agent. -/
theorem C10_agent_input_vs_history_witness :
    processMessage (fun _ _ _ => .ok "reply") 0 [] "\x7b\"text\": \" hi \"\x7d" =
      (1, [.user (pyStrip " hi "), .assistant "reply"], [.agent "reply"]) ∧
    pyStrip " hi " ++ "\n /no_think" ≠ pyStrip " hi " :=
  C10_agent_input_vs_history (fun _ _ _ => .ok "reply") 0 [] "\x7b\"text\": \" hi \"\x7d"
    (.cons "text" (.str " hi ") .nil) " hi " "reply" rfl rfl (by decide) rfl

/-- C9: Every connection's first outbound frame is the single `system`
envelope `"Connected to DataGen agent 🚀"`, sent before anything else,
and it is the only `system` envelope of the whole connection; and a
connection whose first message is the valid envelope
`{"text": "hi"}` with a successful agent call receives exactly one
`agent` envelope, after which the history holds exactly the user turn
`"hi"` followed by the assistant reply. -/
theorem C9_system_then_agent
    (agentF : Nat → List Turn → String → Except String String)
    (msgs : List String) (r : String)
    (h : agentF 0 [] ("hi" ++ "\n /no_think") = .ok r) :
    (handler agentF msgs).2.head? = some (.system "Connected to DataGen agent 🚀") ∧
    (handler agentF msgs).2.countP (fun env => isSystemEnv env) = 1 ∧
    handler agentF ["\x7b\"text\": \"hi\"\x7d"] =
      ([.user "hi", .assistant r],
        [.system "Connected to DataGen agent 🚀", .agent r]) := by
  refine ⟨rfl, ?_, ?_⟩
  · show (Envelope.system "Connected to DataGen agent 🚀" ::
      (runMessages agentF 0 [] msgs).2).countP (fun env => isSystemEnv env) = 1
    rw [List.countP_cons_of_pos _ _ (by rfl), runMessages_no_system]
  · have hstep : processMessage agentF 0 [] "\x7b\"text\": \"hi\"\x7d" =
        (1, [.user "hi", .assistant r], [.agent r]) := by
      rw [processMessage_obj_str agentF 0 [] "\x7b\"text\": \"hi\"\x7d"
        (.cons "text" (.str "hi") .nil) "hi" rfl rfl]
      rw [if_neg (by decide : ¬pyStrip "hi" = "")]
      rw [show pyStrip "hi" = "hi" from rfl, h]
      rfl
    show ((runMessages agentF 0 [] ["\x7b\"text\": \"hi\"\x7d"]).1,
      Envelope.system "Connected to DataGen agent 🚀" ::
        (runMessages agentF 0 [] ["\x7b\"text\": \"hi\"\x7d"]).2) = _
    rw [runMessages]
    simp [hstep, runMessages]

/-- Witness for C9 at a concrete agent and trace. -/
theorem C9_system_then_agent_witness :
    (handler (fun _ _ _ => .ok "done") ["\x7b\"text\": \"hi\"\x7d"]).2.head? =
      some (.system "Connected to DataGen agent 🚀") ∧
    (handler (fun _ _ _ => .ok "done") ["\x7b\"text\": \"hi\"\x7d"]).2.countP
      (fun env => isSystemEnv env) = 1 ∧
    handler (fun _ _ _ => .ok "done") ["\x7b\"text\": \"hi\"\x7d"] =
      ([.user "hi", .assistant "done"],
        [.system "Connected to DataGen agent 🚀", .agent "done"]) :=
  C9_system_then_agent (fun _ _ _ => .ok "done") ["\x7b\"text\": \"hi\"\x7d"] "done" rfl

/-- Witness for C1 at a concrete input (`randint` oracle returning the
lower bound). -/
theorem C1_generate_sample_users_ok_witness :
    ∃ users,
      generate_sample_users (fun _ lo _ => lo) (fun _ => "2024-01-01")
        ["Alice", "Bob"] ["Ng"] ["ex.com"] 18 30 = .ok users users.length ∧
      users.length = (["Alice", "Bob"] : List String).length ∧
      ∀ i, ∀ hi : i < users.length,
        (users.get ⟨i, hi⟩).firstName = (["Alice", "Bob"] : List String).getD i "" ∧
        (users.get ⟨i, hi⟩).lastName =
          (["Ng"] : List String).getD (i % (["Ng"] : List String).length) "" ∧
        (users.get ⟨i, hi⟩).email =
          ((["Alice", "Bob"] : List String).getD i "").toLower ++ "." ++
          ((["Ng"] : List String).getD (i % (["Ng"] : List String).length) "").toLower ++
          "@" ++ (["ex.com"] : List String).getD (i % (["ex.com"] : List String).length) "" ∧
        (users.get ⟨i, hi⟩).id = i + 1 ∧
        (∃ m : Int, 100 ≤ m ∧ m ≤ 999 ∧
          (users.get ⟨i, hi⟩).username =
            ((["Alice", "Bob"] : List String).getD i "").toLower ++ String.mk (intChars m)) ∧
        ((18 : Int) ≤ (users.get ⟨i, hi⟩).age ∧ (users.get ⟨i, hi⟩).age ≤ 30) :=
  C1_generate_sample_users_ok (fun _ lo _ => lo) (fun _ => "2024-01-01")
    ["Alice", "Bob"] ["Ng"] ["ex.com"] 18 30 (by decide) (by decide) (by decide)
    (by decide) (by decide) (fun _ _ _ hle => ⟨le_rfl, hle⟩)
